import Mathlib

/-!
Shallow embedding of the `inject` dependency-graph resolver
(facebookarchive/inject).  The embedding follows `inject.go` (the most
complete variant in the repository); the tag scanner `extractTag` is taken
from the two older in-repository variants, which inline the code that
`inject.go` imports from the `structtag` package.  Go's reflection layer is
modelled by an explicit type environment, a heap of struct values addressed
by (allocation, field-path) locations, and a state record mirroring the
`Graph` struct.  Strings are modelled as lists of characters (Go operates
on bytes; no claim below depends on multi-byte encodings).
-/

namespace Inject

/-- Types as seen through `reflect.Type`: a struct identifier, a pointer,
an interface identifier, a map type identifier, or a plain value kind
(modelled by `tInt`, standing for every non-pointer non-interface non-map
non-struct kind). -/
inductive Ty where
  | tInt : Ty
  | tStruct : Nat → Ty
  | tPtr : Ty → Ty
  | tIface : Nat → Ty
  | tMap : Nat → Ty
deriving DecidableEq, Repr

/-- Declaration of one struct field: Go name, type, raw tag string,
whether it is exported (`CanSet`) and whether it is an anonymous
(embedded) field. -/
structure FieldDecl where
  fname : String
  fty : Ty
  ftag : String
  exported : Bool
  anonymous : Bool
deriving DecidableEq, Repr

/-- Type environment: the field declarations of every struct identifier
and the interface-implementation relation used by
`reflect.Type.AssignableTo` when the destination is an interface.
`depth` bounds the struct-nesting depth, used to build zero values
(Go's type system guarantees struct nesting is finite). -/
structure Env where
  fields : Nat → List FieldDecl
  impls : Ty → Nat → Bool
  depth : Nat

/-- AssignableTo of `reflect`: identity for concrete destinations,
implementation check for interface destinations. -/
def assignableTo (env : Env) (src dst : Ty) : Bool :=
  match dst with
  | .tIface iid => src == dst || env.impls src iid
  | _ => src == dst

/-- Runtime values.  A pointer holds a heap location (allocation index
plus field path); an interface value holds the dynamic type and value;
`vMapEmpty` is a freshly made (non-nil) empty map. -/
inductive Val where
  | vInt : Int → Val
  | vPtrNil : Val
  | vPtr : Nat → List Nat → Val
  | vIfaceNil : Val
  | vIface : Ty → Val → Val
  | vMapNil : Val
  | vMapEmpty : Val
  | vStruct : Nat → List Val → Val

instance : Inhabited Val := ⟨Val.vInt 0⟩

mutual

/-- Boolean equality on values (the nested list forces a hand-written
definition). -/
def valBEq : Val → Val → Bool
  | .vInt a, .vInt b => a == b
  | .vPtrNil, .vPtrNil => true
  | .vPtr b1 p1, .vPtr b2 p2 => b1 == b2 && p1 == p2
  | .vIfaceNil, .vIfaceNil => true
  | .vIface t1 v1, .vIface t2 v2 => t1 == t2 && valBEq v1 v2
  | .vMapNil, .vMapNil => true
  | .vMapEmpty, .vMapEmpty => true
  | .vStruct s1 f1, .vStruct s2 f2 => s1 == s2 && valListBEq f1 f2
  | _, _ => false

def valListBEq : List Val → List Val → Bool
  | [], [] => true
  | a :: as, b :: bs => valBEq a b && valListBEq as bs
  | _, _ => false

end

instance : BEq Val := ⟨valBEq⟩

mutual

def valBEq_correct : (a b : Val) → (valBEq a b = true ↔ a = b)
  | .vInt a, .vInt b => by simp [valBEq]
  | .vPtrNil, .vPtrNil => by simp [valBEq]
  | .vPtr b1 p1, .vPtr b2 p2 => by simp [valBEq]
  | .vIfaceNil, .vIfaceNil => by simp [valBEq]
  | .vIface t1 v1, .vIface t2 v2 => by
      simp [valBEq, valBEq_correct v1 v2]
  | .vMapNil, .vMapNil => by simp [valBEq]
  | .vMapEmpty, .vMapEmpty => by simp [valBEq]
  | .vStruct s1 f1, .vStruct s2 f2 => by
      simp [valBEq, valListBEq_correct f1 f2]
  | .vInt _, .vPtrNil => by simp [valBEq]
  | .vInt _, .vPtr _ _ => by simp [valBEq]
  | .vInt _, .vIfaceNil => by simp [valBEq]
  | .vInt _, .vIface _ _ => by simp [valBEq]
  | .vInt _, .vMapNil => by simp [valBEq]
  | .vInt _, .vMapEmpty => by simp [valBEq]
  | .vInt _, .vStruct _ _ => by simp [valBEq]
  | .vPtrNil, .vInt _ => by simp [valBEq]
  | .vPtrNil, .vPtr _ _ => by simp [valBEq]
  | .vPtrNil, .vIfaceNil => by simp [valBEq]
  | .vPtrNil, .vIface _ _ => by simp [valBEq]
  | .vPtrNil, .vMapNil => by simp [valBEq]
  | .vPtrNil, .vMapEmpty => by simp [valBEq]
  | .vPtrNil, .vStruct _ _ => by simp [valBEq]
  | .vPtr _ _, .vInt _ => by simp [valBEq]
  | .vPtr _ _, .vPtrNil => by simp [valBEq]
  | .vPtr _ _, .vIfaceNil => by simp [valBEq]
  | .vPtr _ _, .vIface _ _ => by simp [valBEq]
  | .vPtr _ _, .vMapNil => by simp [valBEq]
  | .vPtr _ _, .vMapEmpty => by simp [valBEq]
  | .vPtr _ _, .vStruct _ _ => by simp [valBEq]
  | .vIfaceNil, .vInt _ => by simp [valBEq]
  | .vIfaceNil, .vPtrNil => by simp [valBEq]
  | .vIfaceNil, .vPtr _ _ => by simp [valBEq]
  | .vIfaceNil, .vIface _ _ => by simp [valBEq]
  | .vIfaceNil, .vMapNil => by simp [valBEq]
  | .vIfaceNil, .vMapEmpty => by simp [valBEq]
  | .vIfaceNil, .vStruct _ _ => by simp [valBEq]
  | .vIface _ _, .vInt _ => by simp [valBEq]
  | .vIface _ _, .vPtrNil => by simp [valBEq]
  | .vIface _ _, .vPtr _ _ => by simp [valBEq]
  | .vIface _ _, .vIfaceNil => by simp [valBEq]
  | .vIface _ _, .vMapNil => by simp [valBEq]
  | .vIface _ _, .vMapEmpty => by simp [valBEq]
  | .vIface _ _, .vStruct _ _ => by simp [valBEq]
  | .vMapNil, .vInt _ => by simp [valBEq]
  | .vMapNil, .vPtrNil => by simp [valBEq]
  | .vMapNil, .vPtr _ _ => by simp [valBEq]
  | .vMapNil, .vIfaceNil => by simp [valBEq]
  | .vMapNil, .vIface _ _ => by simp [valBEq]
  | .vMapNil, .vMapEmpty => by simp [valBEq]
  | .vMapNil, .vStruct _ _ => by simp [valBEq]
  | .vMapEmpty, .vInt _ => by simp [valBEq]
  | .vMapEmpty, .vPtrNil => by simp [valBEq]
  | .vMapEmpty, .vPtr _ _ => by simp [valBEq]
  | .vMapEmpty, .vIfaceNil => by simp [valBEq]
  | .vMapEmpty, .vIface _ _ => by simp [valBEq]
  | .vMapEmpty, .vMapNil => by simp [valBEq]
  | .vMapEmpty, .vStruct _ _ => by simp [valBEq]
  | .vStruct _ _, .vInt _ => by simp [valBEq]
  | .vStruct _ _, .vPtrNil => by simp [valBEq]
  | .vStruct _ _, .vPtr _ _ => by simp [valBEq]
  | .vStruct _ _, .vIfaceNil => by simp [valBEq]
  | .vStruct _ _, .vIface _ _ => by simp [valBEq]
  | .vStruct _ _, .vMapNil => by simp [valBEq]
  | .vStruct _ _, .vMapEmpty => by simp [valBEq]

def valListBEq_correct : (as bs : List Val) → (valListBEq as bs = true ↔ as = bs)
  | [], [] => by simp [valListBEq]
  | [], _ :: _ => by simp [valListBEq]
  | _ :: _, [] => by simp [valListBEq]
  | a :: as, b :: bs => by
      simp [valListBEq, valBEq_correct a b, valListBEq_correct as bs]

end

instance : DecidableEq Val := fun a b =>
  if h : valBEq a b = true then isTrue ((valBEq_correct a b).mp h)
  else isFalse (fun he => h ((valBEq_correct a b).mpr he))

mutual

/-- Structural zero test, the meaning of
`reflect.DeepEqual(v.Interface(), reflect.Zero(t).Interface())` for a
value of its own type. -/
def isZeroVal : Val → Bool
  | .vInt n => n == 0
  | .vPtrNil => true
  | .vPtr _ _ => false
  | .vIfaceNil => true
  | .vIface _ _ => false
  | .vMapNil => true
  | .vMapEmpty => false
  | .vStruct _ fs => isZeroList fs

def isZeroList : List Val → Bool
  | [] => true
  | v :: vs => isZeroVal v && isZeroList vs

end

/-- Model of `isNilOrZero` (inject.go:548): pointer and interface kinds
use `IsNil`, every other kind deep-equality with the zero value. -/
def isNilOrZero (v : Val) (_t : Ty) : Bool :=
  match v with
  | .vPtrNil => true
  | .vPtr _ _ => false
  | .vIfaceNil => true
  | .vIface _ _ => false
  | v => isZeroVal v

/-- Model of `isStructPtr` (inject.go:544). -/
def isStructPtr : Ty → Bool
  | .tPtr (.tStruct _) => true
  | _ => false

/-- Zero value of a type, as built by `reflect.New`; `fuel` bounds struct
nesting (always sufficient for well-formed Go types). -/
def zeroVal (env : Env) : Nat → Ty → Val
  | _, .tInt => .vInt 0
  | _, .tPtr _ => .vPtrNil
  | _, .tIface _ => .vIfaceNil
  | _, .tMap _ => .vMapNil
  | 0, .tStruct sid => .vStruct sid []
  | Nat.succ n, .tStruct sid =>
      .vStruct sid ((env.fields sid).map (fun f => zeroVal env n f.fty))

/-- Heap: a list of top-level allocations (struct values). -/
abbrev Heap := List Val

/-- Read a sub-value along a field path. -/
def readPath : Val → List Nat → Option Val
  | v, [] => some v
  | .vStruct _ fs, i :: p =>
      match fs[i]? with
      | some v => readPath v p
      | none => none
  | _, _ :: _ => none

/-- Write a sub-value along a field path (no-op on an invalid path). -/
def writePath : Val → List Nat → Val → Val
  | _, [], w => w
  | .vStruct sid fs, i :: p, w =>
      match fs[i]? with
      | some cur => .vStruct sid (fs.set i (writePath cur p w))
      | none => .vStruct sid fs
  | v, _ :: _, _ => v

def heapRead (h : Heap) (base : Nat) (path : List Nat) : Option Val :=
  match h[base]? with
  | some v => readPath v path
  | none => none

def heapWrite (h : Heap) (base : Nat) (path : List Nat) (w : Val) : Heap :=
  match h[base]? with
  | some v => h.set base (writePath v path w)
  | none => h

/-! ### Tag parsing (`parseTag`, `extractTag`, Go `strconv.Unquote`) -/

/-- Parsed tag value (the `tag` struct of inject.go:522).  Go compares
the parser's results against the canonical pointers `injectOnly` and
`injectPrivate`; since named tags always carry a non-empty name, pointer
comparison coincides with structural comparison here. -/
structure STag where
  name : String
  priv : Bool
deriving DecidableEq, Repr

def injectOnly : STag := ⟨"", false⟩
def injectPrivate : STag := ⟨"", true⟩

/-- Errors of the tag extractor: the scanner's `errInvalidTag`, or a
`strconv.Unquote` failure. -/
inductive TagErr where
  | invalidTag : TagErr
  | unquoteErr : TagErr
deriving DecidableEq, Repr

def isHexDigit (c : Char) : Bool :=
  ('0' ≤ c && c ≤ '9') || ('a' ≤ c && c ≤ 'f') || ('A' ≤ c && c ≤ 'F')

def hexVal (c : Char) : Nat :=
  if '0' ≤ c && c ≤ '9' then c.toNat - 48
  else if 'a' ≤ c && c ≤ 'f' then c.toNat - 87
  else c.toNat - 55

def isOctDigit (c : Char) : Bool := '0' ≤ c && c ≤ '7'

def octVal (c : Char) : Nat := c.toNat - 48

/-- Is a code point a valid, non-surrogate rune (Go `utf8.ValidRune`)? -/
def validRune (n : Nat) : Bool :=
  (n < 0xD800 || 0xDFFF < n) && n ≤ 0x10FFFF

def mkChar (n : Nat) : Char := Char.ofNat n

/-- Process the body of a Go double-quoted string literal, per
`strconv.UnquoteChar`: plain characters except quote and newline;
escapes for control characters, `\\`, `\"`, hex, small/large unicode and
octal.  Returns `none` exactly when `strconv.Unquote` would fail. -/
def unquoteBody : List Char → Option (List Char)
  | [] => some []
  | '"' :: _ => none
  | '\\' :: rest =>
      match rest with
      | 'a' :: r => (unquoteBody r).map (fun l => mkChar 0x07 :: l)
      | 'b' :: r => (unquoteBody r).map (fun l => mkChar 0x08 :: l)
      | 'f' :: r => (unquoteBody r).map (fun l => mkChar 0x0C :: l)
      | 'n' :: r => (unquoteBody r).map (fun l => mkChar 0x0A :: l)
      | 'r' :: r => (unquoteBody r).map (fun l => mkChar 0x0D :: l)
      | 't' :: r => (unquoteBody r).map (fun l => mkChar 0x09 :: l)
      | 'v' :: r => (unquoteBody r).map (fun l => mkChar 0x0B :: l)
      | '\\' :: r => (unquoteBody r).map (fun l => '\\' :: l)
      | '"' :: r => (unquoteBody r).map (fun l => '"' :: l)
      | 'x' :: h1 :: h2 :: r =>
          if isHexDigit h1 && isHexDigit h2 then
            (unquoteBody r).map (fun l => mkChar (16 * hexVal h1 + hexVal h2) :: l)
          else none
      | 'u' :: h1 :: h2 :: h3 :: h4 :: r =>
          if isHexDigit h1 && isHexDigit h2 && isHexDigit h3 && isHexDigit h4 then
            let v := 4096 * hexVal h1 + 256 * hexVal h2 + 16 * hexVal h3 + hexVal h4
            if validRune v then (unquoteBody r).map (fun l => mkChar v :: l)
            else none
          else none
      | 'U' :: h1 :: h2 :: h3 :: h4 :: h5 :: h6 :: h7 :: h8 :: r =>
          if isHexDigit h1 && isHexDigit h2 && isHexDigit h3 && isHexDigit h4 &&
             isHexDigit h5 && isHexDigit h6 && isHexDigit h7 && isHexDigit h8 then
            let v := 268435456 * hexVal h1 + 16777216 * hexVal h2 +
                     1048576 * hexVal h3 + 65536 * hexVal h4 +
                     4096 * hexVal h5 + 256 * hexVal h6 + 16 * hexVal h7 + hexVal h8
            if validRune v then (unquoteBody r).map (fun l => mkChar v :: l)
            else none
          else none
      | c :: d2 :: d3 :: r =>
          if isOctDigit c && isOctDigit d2 && isOctDigit d3 then
            let v := 64 * octVal c + 8 * octVal d2 + octVal d3
            if v ≤ 255 then (unquoteBody r).map (fun l => mkChar v :: l)
            else none
          else none
      | _ => none
  | c :: rest =>
      if c = '\n' then none
      else (unquoteBody rest).map (fun l => c :: l)

/-- Go `strconv.Unquote` restricted to the shapes `extractTag` feeds it:
at least two characters, surrounded by double quotes, body valid. -/
def unquote (s : List Char) : Option (List Char) :=
  match s with
  | '"' :: rest =>
      if rest.getLast? = some '"' then
        if rest.length = 0 then none else unquoteBody rest.dropLast
      else none
  | _ => none

/-- Scan of the quoted value in `extractTag` (part_000:242): position of
the closing quote, where a backslash skips the following character.
Returns `none` when the scan runs past the end of the string. -/
def findClose : List Char → Option Nat
  | [] => none
  | '"' :: _ => some 0
  | '\\' :: [] => none
  | '\\' :: _ :: rest => (findClose rest).map (fun n => n + 2)
  | _ :: rest => (findClose rest).map (fun n => n + 1)

/-- Model of `extractTag` (part_000:217): scan `key:"value"` segments
left to right, return the unquoted value of the first `inject` key.
`fuel` is a termination artifact; every call below supplies
`length + 1`, which is always sufficient since each iteration consumes
at least two characters. -/
def extractTagAux : Nat → List Char → Except TagErr (Bool × List Char)
  | 0, _ => .error .invalidTag
  | Nat.succ fuel, tag =>
    let t1 := tag.dropWhile (fun c => c == ' ')
    if t1.isEmpty then .ok (false, [])
    else
      let i := (t1.takeWhile (fun c => c != ' ' && c != ':' && c != '"')).length
      if t1[i]? ≠ some ':' ∨ t1[i+1]? ≠ some '"' then .error .invalidTag
      else
        let name := t1.take i
        let t2 := t1.drop (i+1)
        match findClose (t2.drop 1) with
        | none => .error .invalidTag
        | some j =>
          let qvalue := t2.take (j+2)
          let rest := t2.drop (j+2)
          if name = "inject".toList then
            match unquote qvalue with
            | none => .error .unquoteErr
            | some v => .ok (true, v)
          else extractTagAux fuel rest

def extractTag (cs : List Char) : Except TagErr (Bool × List Char) :=
  extractTagAux (cs.length + 1) cs

/-- Model of `parseTag` (inject.go:527): absent, plain, private or named
by the extracted value. -/
def parseTag (t : String) : Except TagErr (Option STag) :=
  match extractTag t.toList with
  | .error e => .error e
  | .ok (false, _) => .ok none
  | .ok (true, v) =>
    if v = [] then .ok (some injectOnly)
    else if v = "private".toList then .ok (some injectPrivate)
    else .ok (some ⟨String.mk v, false⟩)

/-- Spec-side (written from the spec's description of the tag grammar,
for the refinement comparison with `extractTag`): the body of a quoted
value — the characters up to the closing quote, a backslash escaping
the following character.  Returns the body and the remainder after the
closing quote. -/
def specBody : List Char → Option (List Char × List Char)
  | [] => none
  | c :: rest =>
    if c = '"' then some ([], rest)
    else if c = '\\' then
      match rest with
      | [] => none
      | c2 :: rest2 => (specBody rest2).map (fun p => (c :: c2 :: p.1, p.2))
    else (specBody rest).map (fun p => (c :: p.1, p.2))

/-- Spec-side (written from the spec's words, not from the code): the
whole-annotation `key:"value"` grammar — a possibly empty sequence of
space-separated segments, each a non-empty key containing no space,
colon or quote, then a colon and a double-quoted value whose escapes
`strconv.Unquote` accepts.  Returns the key/value pairs.  `fuel` is a
termination artifact. -/
def specParseAux : Nat → List Char → Option (List (String × List Char))
  | 0, _ => none
  | Nat.succ fuel, cs =>
    let t1 := cs.dropWhile (fun c => c == ' ')
    if t1.isEmpty then some []
    else
      let key := t1.takeWhile (fun c => c != ' ' && c != ':' && c != '"')
      if key.isEmpty then none
      else
        match t1.drop key.length with
        | ':' :: '"' :: rest =>
          match specBody rest with
          | none => none
          | some (body, after) =>
            match unquoteBody body with
            | none => none
            | some v =>
              if after.isEmpty then some [(String.mk key, v)]
              else if after.head? = some ' ' then
                (specParseAux fuel after).map (fun prs => (String.mk key, v) :: prs)
              else none
        | _ => none

/-- Spec-side: parse a whole annotation against the grammar.  The fuel
`length + 1` is ample since every segment consumes characters. -/
def specParse (cs : List Char) : Option (List (String × List Char)) :=
  specParseAux (cs.length + 1) cs

/-- Value of the first `inject` key among parsed pairs. -/
def lookupPairs : List (String × List Char) → Option (List Char)
  | [] => none
  | (k, v) :: rest => if k = "inject" then some v else lookupPairs rest

/-- The extraction result the grammar predicts for `extractTag`. -/
def specExtractResult (prs : List (String × List Char)) : Bool × List Char :=
  match lookupPairs prs with
  | none => (false, [])
  | some v => (true, v)

/-- Classification of the extracted inject value, per `parseTag`
(inject.go:527): absent, plain, private or named. -/
def classifyTag : Option (List Char) → Option STag
  | none => none
  | some v =>
    if v = [] then some injectOnly
    else if v = "private".toList then some injectPrivate
    else some ⟨String.mk v, false⟩

/-! ### Objects, graph state, errors -/

/-- Model of `Object` (inject.go:55).  `valueTy`/`value` model the
`Value interface{}` field together with the cached `reflectType` and
`reflectValue` (`Provide` derives the latter two from the former). -/
structure Obj where
  valueTy : Ty
  value : Val
  name : String
  complete : Bool
  priv : Bool
  level : Nat
  created : Bool
  embedded : Bool
deriving DecidableEq

/-- Model of `Graph` (inject.go:78) together with the heap and the store
of all `*Object`s ever registered (`objs`); `unnamed` and `named` hold
indices into `objs`, modelling the shared mutable pointers. -/
structure GState where
  heap : Heap
  objs : List Obj
  unnamed : List Nat
  unnamedTypeKeys : List Ty
  named : List (String × Nat)
  maxLevel : Nat
  levels : List (List Nat)
deriving DecidableEq

/-- Errors, one constructor per `fmt.Errorf`/`panic` site, carrying the
data interpolated into the message.  `reflectPanic` stands for the
panics of the reflect package on malformed object values (e.g. a nil
pointer), and `outOfFuel` is a termination artifact of the model for the
work-queue loop, which the Go code runs without bound. -/
inductive Err where
  | notAStructReference (ty : Ty) (v : Val)
  | duplicateUnnamedType (ty : Ty)
  | duplicateName (name : String)
  | malformedTag (raw : String) (fieldName : String) (ownerTy : Ty)
  | unexportedField (fieldName : String) (ownerTy : Ty)
  | namedNotFound (name : String) (fieldName : String) (ownerTy : Ty)
  | namedNotAssignable (name : String) (fieldTy : Ty) (fieldName : String) (ownerTy : Ty)
  | privateInline (fieldName : String) (ownerTy : Ty)
  | mapNotPrivate (fieldName : String) (ownerTy : Ty)
  | unsupportedField (fieldName : String) (ownerTy : Ty)
  | privateInterface (fieldName : String) (ownerTy : Ty)
  | twoAssignable (fieldName : String) (ownerTy : Ty) (ty1 : Ty) (v1 : Val) (ty2 : Ty) (v2 : Val)
  | noAssignable (fieldName : String) (ownerTy : Ty)
  | panicNamedSecondPass (name : String)
  | inlineNotInlined (fieldName : String) (ownerTy : Ty)
  | inlineTagRequired (fieldName : String) (ownerTy : Ty)
  | reflectPanic
  | outOfFuel
deriving DecidableEq

/-- Population result: the state after the call plus an optional error.
Go mutates the caller's objects in place, so mutations made before a
failure survive it; `Except` would lose them. -/
abbrev PR := GState × Option Err

/-- Sequence two state transformations, short-circuiting on error. -/
def pbind (r : PR) (k : GState → PR) : PR :=
  match r with
  | (st, some e) => (st, some e)
  | (st, none) => k st

/-- Model of the body of `Graph.Provide` for one object
(inject.go:89-141; the Logger lines are external diagnostics). -/
def provideOne (st : GState) (o : Obj) : PR :=
  if o.name = "" then
    if !isStructPtr o.valueTy then
      (st, some (.notAStructReference o.valueTy o.value))
    else if !o.priv && st.unnamedTypeKeys.contains o.valueTy then
      (st, some (.duplicateUnnamedType o.valueTy))
    else
      ({ st with objs := st.objs ++ [o],
                 unnamed := st.unnamed ++ [st.objs.length],
                 unnamedTypeKeys :=
                   if o.priv then st.unnamedTypeKeys
                   else st.unnamedTypeKeys ++ [o.valueTy] }, none)
  else
    if (st.named.lookup o.name).isSome then (st, some (.duplicateName o.name))
    else ({ st with objs := st.objs ++ [o],
                    named := st.named ++ [(o.name, st.objs.length)] }, none)

/-- Model of `Graph.Provide` over its variadic argument list. -/
def provideList : GState → List Obj → PR
  | st, [] => (st, none)
  | st, o :: os => pbind (provideOne st o) (fun st' => provideList st' os)

/-- Level of the object at index `oi` (0 for an invalid index). -/
def levelOf (st : GState) (oi : Nat) : Nat :=
  match st.objs[oi]? with
  | some o => o.level
  | none => 0

/-- Model of `updateLevel` (inject.go:500). -/
def updateLevel (st : GState) (useI depI : Nat) : GState :=
  match st.objs[depI]? with
  | none => st
  | some d =>
      let newLevel := levelOf st useI + 1
      if newLevel ≤ d.level then st
      else
        { st with objs := st.objs.set depI { d with level := newLevel },
                  maxLevel := if st.maxLevel < newLevel then newLevel else st.maxLevel }

/-- Value written by `field.Set(reflect.ValueOf(src))`: stored as-is in a
concrete field, wrapped with its dynamic type in an interface field. -/
def setVal (fieldType srcTy : Ty) (v : Val) : Val :=
  match fieldType with
  | .tIface _ => .vIface srcTy v
  | _ => v

/-- First-match scan over the unnamed entries (the loop at
inject.go:350-367): skip private entries, return the first whose type is
assignable to the field type. -/
def findAssignable (env : Env) (objs : List Obj) (ft : Ty) : List Nat → Option Nat
  | [] => none
  | j :: rest =>
      match objs[j]? with
      | none => findAssignable env objs ft rest
      | some e =>
          if e.priv then findAssignable env objs ft rest
          else if assignableTo env e.valueTy ft then some j
          else findAssignable env objs ft rest

/-- One iteration of the `StructLoop` of `populateExplicit`
(inject.go:216-400): the consumer is object `oi`, whose struct storage is
at `(base, path)` with struct id `sid`; `fd` is field number `i`. -/
def popField (env : Env) (st : GState) (oi base : Nat) (path : List Nat)
    (sid : Nat) (i : Nat) (fd : FieldDecl) : PR :=
  let ownerTy := Ty.tPtr (.tStruct sid)
  match parseTag fd.ftag with
  | .error _ => (st, some (.malformedTag fd.ftag fd.fname ownerTy))
  | .ok none => (st, none)
  | .ok (some tg) =>
    if !fd.exported then (st, some (.unexportedField fd.fname ownerTy))
    else
      match heapRead st.heap base (path ++ [i]) with
      | none => (st, some .reflectPanic)
      | some fv =>
        if !(isNilOrZero fv fd.fty) then (st, none)
        else if tg.name ≠ "" then
          match st.named.lookup tg.name with
          | none => (st, some (.namedNotFound tg.name fd.fname ownerTy))
          | some ei =>
            match st.objs[ei]? with
            | none => (st, some .reflectPanic)
            | some existing =>
              if !(assignableTo env existing.valueTy fd.fty) then
                (st, some (.namedNotAssignable tg.name fd.fty fd.fname ownerTy))
              else
                let st1 := { st with
                  heap := heapWrite st.heap base (path ++ [i])
                            (setVal fd.fty existing.valueTy existing.value) }
                (updateLevel st1 oi ei, none)
        else
          match fd.fty with
          | .tStruct sid2 =>
            if tg = injectPrivate then (st, some (.privateInline fd.fname ownerTy))
            else
              let newLevel := levelOf st oi + 1
              let st1 := { st with
                maxLevel := if st.maxLevel < newLevel then newLevel else st.maxLevel }
              provideOne st1
                ⟨.tPtr (.tStruct sid2), .vPtr base (path ++ [i]), "", false, true,
                  newLevel, false, true⟩
          | .tIface _ => (st, none)
          | .tMap _ =>
            if tg ≠ injectPrivate then (st, some (.mapNotPrivate fd.fname ownerTy))
            else
              ({ st with heap := heapWrite st.heap base (path ++ [i]) .vMapEmpty }, none)
          | .tPtr (.tStruct k) =>
            let scanRes :=
              if tg ≠ injectPrivate then findAssignable env st.objs (.tPtr (.tStruct k)) st.unnamed
              else none
            match scanRes with
            | some j =>
                match st.objs[j]? with
                | none => (st, some .reflectPanic)
                | some existing =>
                  let st1 := { st with
                    heap := heapWrite st.heap base (path ++ [i])
                              (setVal (.tPtr (.tStruct k)) existing.valueTy existing.value) }
                  (updateLevel st1 oi j, none)
            | none =>
                let newValue := Val.vPtr st.heap.length []
                let newLevel := levelOf st oi + 1
                let st1 := { st with
                  heap := st.heap ++ [zeroVal env env.depth (.tStruct k)],
                  maxLevel := if st.maxLevel < newLevel then newLevel else st.maxLevel }
                let newObject : Obj :=
                  ⟨.tPtr (.tStruct k), newValue, "", false, tg == injectPrivate,
                    newLevel, true, false⟩
                pbind (provideOne st1 newObject) (fun st2 =>
                  ({ st2 with heap := heapWrite st2.heap base (path ++ [i]) newValue }, none))
          | _ => (st, some (.unsupportedField fd.fname ownerTy))

/-- Iterate `popField` over the remaining field declarations. -/
def popFields (env : Env) (st : GState) (oi base : Nat) (path : List Nat) (sid : Nat) :
    Nat → List FieldDecl → PR
  | _, [] => (st, none)
  | i, fd :: rest =>
      pbind (popField env st oi base path sid i fd)
        (fun st' => popFields env st' oi base path sid (i+1) rest)

/-- Model of `populateExplicit` (inject.go:209): skip named value types,
then walk the fields of the pointed-to struct. -/
def populateExplicit (env : Env) (st : GState) (oi : Nat) : PR :=
  match st.objs[oi]? with
  | none => (st, some .reflectPanic)
  | some o =>
    if o.name ≠ "" && !isStructPtr o.valueTy then (st, none)
    else
      match o.value, o.valueTy with
      | .vPtr base path, .tPtr (.tStruct sid) =>
          popFields env st oi base path sid 0 (env.fields sid)
      | _, _ => (st, some .reflectPanic)

/-- Scan of the second pass (inject.go:456-486): wire the first
assignable non-private entry and keep scanning; a second assignable
entry is an error reporting both candidates. -/
def ifaceScan (env : Env) (st : GState) (oi base : Nat) (path : List Nat) (i : Nat)
    (fty : Ty) (fname : String) (ownerTy : Ty) (found : Option Nat) : List Nat → PR
  | [] =>
      match found with
      | none => (st, some (.noAssignable fname ownerTy))
      | some _ => (st, none)
  | j :: rest =>
      match st.objs[j]? with
      | none => ifaceScan env st oi base path i fty fname ownerTy found rest
      | some existing =>
        if existing.priv then ifaceScan env st oi base path i fty fname ownerTy found rest
        else if assignableTo env existing.valueTy fty then
          match found with
          | some fj =>
              match st.objs[fj]? with
              | some fo =>
                  (st, some (.twoAssignable fname ownerTy fo.valueTy fo.value
                              existing.valueTy existing.value))
              | none => (st, some .reflectPanic)
          | none =>
              let st1 := { st with
                heap := heapWrite st.heap base (path ++ [i])
                          (setVal fty existing.valueTy existing.value) }
              let st2 := updateLevel st1 oi j
              ifaceScan env st2 oi base path i fty fname ownerTy (some j) rest
        else ifaceScan env st oi base path i fty fname ownerTy found rest

/-- One field of `populateUnnamedInterface` (inject.go:410-496). -/
def popFieldIface (env : Env) (st : GState) (oi base : Nat) (path : List Nat)
    (sid : Nat) (i : Nat) (fd : FieldDecl) : PR :=
  let ownerTy := Ty.tPtr (.tStruct sid)
  match parseTag fd.ftag with
  | .error _ => (st, some (.malformedTag fd.ftag fd.fname ownerTy))
  | .ok none => (st, none)
  | .ok (some tg) =>
    match fd.fty with
    | .tIface _ =>
      if tg = injectPrivate then (st, some (.privateInterface fd.fname ownerTy))
      else
        match heapRead st.heap base (path ++ [i]) with
        | none => (st, some .reflectPanic)
        | some fv =>
          if !(isNilOrZero fv fd.fty) then (st, none)
          else if tg.name ≠ "" then (st, some (.panicNamedSecondPass tg.name))
          else ifaceScan env st oi base path i fd.fty fd.fname ownerTy none st.unnamed
    | _ => (st, none)

/-- Iterate `popFieldIface` over the remaining field declarations. -/
def popFieldsIface (env : Env) (st : GState) (oi base : Nat) (path : List Nat) (sid : Nat) :
    Nat → List FieldDecl → PR
  | _, [] => (st, none)
  | i, fd :: rest =>
      pbind (popFieldIface env st oi base path sid i fd)
        (fun st' => popFieldsIface env st' oi base path sid (i+1) rest)

/-- Model of `populateUnnamedInterface` (inject.go:404). -/
def populateIface (env : Env) (st : GState) (oi : Nat) : PR :=
  match st.objs[oi]? with
  | none => (st, some .reflectPanic)
  | some o =>
    if o.name ≠ "" && !isStructPtr o.valueTy then (st, none)
    else
      match o.value, o.valueTy with
      | .vPtr base path, .tPtr (.tStruct sid) =>
          popFieldsIface env st oi base path sid 0 (env.fields sid)
      | _, _ => (st, some .reflectPanic)

/-- Work-queue loop of `Populate` (inject.go:147-163): process
`unnamed[i]` by index while the pass appends to `unnamed`.  `fuel` is a
termination artifact of the model: the Go loop can run forever (e.g. a
private self-referential tag), so the model reports `outOfFuel` when the
supplied bound is exhausted. -/
def populateLoop (env : Env) : Nat → GState → Nat → PR
  | 0, st, _ => (st, some .outOfFuel)
  | Nat.succ fuel, st, i =>
    if i = st.unnamed.length then (st, none)
    else
      match st.unnamed[i]? with
      | none => (st, none)
      | some oi =>
        match st.objs[oi]? with
        | none => (st, some .reflectPanic)
        | some o =>
          if o.complete then populateLoop env fuel st (i+1)
          else pbind (populateExplicit env st oi) (fun st' => populateLoop env fuel st' (i+1))

/-- Named sweep of pass 1 (inject.go:165-173); the iteration order of
Go's map range is modelled as insertion order. -/
def populateExplicitNamed (env : Env) : GState → List (String × Nat) → PR
  | st, [] => (st, none)
  | st, (_, oi) :: rest =>
    match st.objs[oi]? with
    | none => (st, some .reflectPanic)
    | some o =>
      if o.complete then populateExplicitNamed env st rest
      else pbind (populateExplicit env st oi) (fun st' => populateExplicitNamed env st' rest)

/-- Unnamed sweep of pass 2 (inject.go:177-185). -/
def populateIfaceList (env : Env) : GState → List Nat → PR
  | st, [] => (st, none)
  | st, oi :: rest =>
    match st.objs[oi]? with
    | none => (st, some .reflectPanic)
    | some o =>
      if o.complete then populateIfaceList env st rest
      else pbind (populateIface env st oi) (fun st' => populateIfaceList env st' rest)

/-- Named sweep of pass 2 (inject.go:187-195). -/
def populateIfaceNamed (env : Env) : GState → List (String × Nat) → PR
  | st, [] => (st, none)
  | st, (_, oi) :: rest =>
    match st.objs[oi]? with
    | none => (st, some .reflectPanic)
    | some o =>
      if o.complete then populateIfaceNamed env st rest
      else pbind (populateIface env st oi) (fun st' => populateIfaceNamed env st' rest)

/-- Append `oi` to the bucket of its level (a no-op on an out-of-range
level, where Go would panic; the invariant `maxLevel` bounds all levels
rules that out). -/
def bucketAdd (ls : List (List Nat)) (lvl : Nat) (oi : Nat) : List (List Nat) :=
  match ls[lvl]? with
  | some b => ls.set lvl (b ++ [oi])
  | none => ls

/-- Level-bucket construction at the end of `Populate`
(inject.go:197-204). -/
def buildLevels (st : GState) : GState :=
  let start : List (List Nat) := List.replicate (st.maxLevel + 1) []
  let l1 := st.unnamed.foldl (fun acc oi => bucketAdd acc (levelOf st oi) oi) start
  let l2 := (st.named.map (fun p => p.2)).foldl (fun acc oi => bucketAdd acc (levelOf st oi) oi) l1
  { st with levels := l2 }

/-- Model of `Graph.Populate` (inject.go:144). -/
def populateG (env : Env) (fuel : Nat) (st : GState) : PR :=
  pbind (populateLoop env fuel st 0) (fun st1 =>
  pbind (populateExplicitNamed env st1 st1.named) (fun st2 =>
  pbind (populateIfaceList env st2 st2.unnamed) (fun st3 =>
  pbind (populateIfaceNamed env st3 st3.named) (fun st4 =>
  (buildLevels st4, none)))))

/-- The zero `Graph`. -/
def emptyG : GState := ⟨[], [], [], [], [], 0, []⟩

/-! ### The inline-capable variant

The spec describes the union of the repository's three near-duplicate
variants "at its most complete" (§2).  The `inline` tag variant and the
anonymous-field check belong to the variant whose tests
(`goject_test.go`) are in the repository while its implementation is
not under `src/`; the definitions below are modelled from the spec
(§3 Tag, §4.1, §4.3 step 4) and checked against the expectations of
those tests.  Everything not touched by the `inline` feature mirrors
`inject.go` exactly. -/

/-- Modelled from the spec: tag descriptor of the inline-capable
variant, with the mutually exclusive `inline` marker (§3 Tag). -/
structure GTag where
  name : String
  priv : Bool
  inline : Bool
deriving DecidableEq

def gInjectOnly : GTag := ⟨"", false, false⟩
def gInjectPrivate : GTag := ⟨"", true, false⟩
def gInjectInline : GTag := ⟨"", false, true⟩

/-- Modelled from the spec: the Tag Parser of the inline-capable variant
(§4.1): same extraction as `extractTag`; the value `"inline"` yields the
dedicated inline variant instead of a named tag. -/
def gParseTag (t : String) : Except TagErr (Option GTag) :=
  match extractTag t.toList with
  | .error e => .error e
  | .ok (false, _) => .ok none
  | .ok (true, v) =>
    if v = [] then .ok (some gInjectOnly)
    else if v = "private".toList then .ok (some gInjectPrivate)
    else if v = "inline".toList then .ok (some gInjectInline)
    else .ok (some ⟨String.mk v, false, false⟩)

/-- Modelled from the spec: one pass-1 field step of the inline-capable
variant (§4.3).  Identical to `popField` except: the tag is a `GTag`;
a record-typed field requires the explicit inline marker unless the
field is anonymous (§4.3 step 4, `goject_test.go` TestInjectInlineMissing);
and an inline marker on a non-record field is rejected
(TestInjectInvalidInline). -/
def gPopField (env : Env) (st : GState) (oi base : Nat) (path : List Nat)
    (sid : Nat) (i : Nat) (fd : FieldDecl) : PR :=
  let ownerTy := Ty.tPtr (.tStruct sid)
  match gParseTag fd.ftag with
  | .error _ => (st, some (.malformedTag fd.ftag fd.fname ownerTy))
  | .ok none => (st, none)
  | .ok (some tg) =>
    if !fd.exported then (st, some (.unexportedField fd.fname ownerTy))
    else
      match heapRead st.heap base (path ++ [i]) with
      | none => (st, some .reflectPanic)
      | some fv =>
        if !(isNilOrZero fv fd.fty) then (st, none)
        else if tg.name ≠ "" then
          match st.named.lookup tg.name with
          | none => (st, some (.namedNotFound tg.name fd.fname ownerTy))
          | some ei =>
            match st.objs[ei]? with
            | none => (st, some .reflectPanic)
            | some existing =>
              if !(assignableTo env existing.valueTy fd.fty) then
                (st, some (.namedNotAssignable tg.name fd.fty fd.fname ownerTy))
              else
                let st1 := { st with
                  heap := heapWrite st.heap base (path ++ [i])
                            (setVal fd.fty existing.valueTy existing.value) }
                (updateLevel st1 oi ei, none)
        else
          match fd.fty with
          | .tStruct sid2 =>
            if tg.priv then (st, some (.privateInline fd.fname ownerTy))
            else if !tg.inline && !fd.anonymous then
              (st, some (.inlineTagRequired fd.fname ownerTy))
            else
              let newLevel := levelOf st oi + 1
              let st1 := { st with
                maxLevel := if st.maxLevel < newLevel then newLevel else st.maxLevel }
              provideOne st1
                ⟨.tPtr (.tStruct sid2), .vPtr base (path ++ [i]), "", false, true,
                  newLevel, false, true⟩
          | .tIface _ => (st, none)
          | .tMap _ =>
            if !tg.priv then (st, some (.mapNotPrivate fd.fname ownerTy))
            else
              ({ st with heap := heapWrite st.heap base (path ++ [i]) .vMapEmpty }, none)
          | .tPtr (.tStruct k) =>
            if tg.inline then (st, some (.inlineNotInlined fd.fname ownerTy))
            else
              let scanRes :=
                if !tg.priv then findAssignable env st.objs (.tPtr (.tStruct k)) st.unnamed
                else none
              match scanRes with
              | some j =>
                  match st.objs[j]? with
                  | none => (st, some .reflectPanic)
                  | some existing =>
                    let st1 := { st with
                      heap := heapWrite st.heap base (path ++ [i])
                                (setVal (.tPtr (.tStruct k)) existing.valueTy existing.value) }
                    (updateLevel st1 oi j, none)
              | none =>
                  let newValue := Val.vPtr st.heap.length []
                  let newLevel := levelOf st oi + 1
                  let st1 := { st with
                    heap := st.heap ++ [zeroVal env env.depth (.tStruct k)],
                    maxLevel := if st.maxLevel < newLevel then newLevel else st.maxLevel }
                  let newObject : Obj :=
                    ⟨.tPtr (.tStruct k), newValue, "", false, tg.priv,
                      newLevel, true, false⟩
                  pbind (provideOne st1 newObject) (fun st2 =>
                    ({ st2 with heap := heapWrite st2.heap base (path ++ [i]) newValue }, none))
          | _ => (st, some (.unsupportedField fd.fname ownerTy))

/-- Field iteration of the inline-capable variant's pass 1. -/
def gPopFields (env : Env) (st : GState) (oi base : Nat) (path : List Nat) (sid : Nat) :
    Nat → List FieldDecl → PR
  | _, [] => (st, none)
  | i, fd :: rest =>
      pbind (gPopField env st oi base path sid i fd)
        (fun st' => gPopFields env st' oi base path sid (i+1) rest)

/-- Pass 1 of the inline-capable variant for one object. -/
def gPopulateExplicit (env : Env) (st : GState) (oi : Nat) : PR :=
  match st.objs[oi]? with
  | none => (st, some .reflectPanic)
  | some o =>
    if o.name ≠ "" && !isStructPtr o.valueTy then (st, none)
    else
      match o.value, o.valueTy with
      | .vPtr base path, .tPtr (.tStruct sid) =>
          gPopFields env st oi base path sid 0 (env.fields sid)
      | _, _ => (st, some .reflectPanic)

/-- Work-queue loop of the inline-capable variant's pass 1. -/
def gPopulateLoop (env : Env) : Nat → GState → Nat → PR
  | 0, st, _ => (st, some .outOfFuel)
  | Nat.succ fuel, st, i =>
    if i = st.unnamed.length then (st, none)
    else
      match st.unnamed[i]? with
      | none => (st, none)
      | some oi =>
        match st.objs[oi]? with
        | none => (st, some .reflectPanic)
        | some o =>
          if o.complete then gPopulateLoop env fuel st (i+1)
          else pbind (gPopulateExplicit env st oi) (fun st' => gPopulateLoop env fuel st' (i+1))

/-- Caller-built `Object` (only `Value`, `Name`, `Complete` are settable
from outside the package; the unexported fields start zeroed). -/
def mkObj (ty : Ty) (v : Val) (name : String) (complete : Bool) : Obj :=
  ⟨ty, v, name, complete, false, 0, false, false⟩

/-! ### Concrete scenario environments -/

/-- Environment for the inline scenarios: struct 10 is
`Outer .. Inline T inject:"inline" ..`, struct 11 is `T .. A *S inject:"" ..`,
struct 12 is `S ..`; struct 13 has an ordinary (non-anonymous) nested
record field with a plain tag; struct 14 has an anonymous embedded
record field with a plain tag. -/
def envInline : Env := {
  fields := fun sid =>
    if sid = 10 then [⟨"Inline", .tStruct 11, "inject:\"inline\"", true, false⟩]
    else if sid = 11 then [⟨"A", .tPtr (.tStruct 12), "inject:\"\"", true, false⟩]
    else if sid = 13 then [⟨"Inline", .tStruct 11, "inject:\"\"", true, false⟩]
    else if sid = 14 then [⟨"T", .tStruct 11, "inject:\"\"", true, true⟩]
    else []
  impls := fun _ _ => false
  depth := 4 }

/-- Seed graph for the inline scenario: one `*Outer` object. -/
def stInline : GState :=
  { (provideList emptyG [mkObj (.tPtr (.tStruct 10)) (.vPtr 0 []) "" false]).1 with
    heap := [.vStruct 10 [.vStruct 11 [.vPtrNil]]] }

end Inject

namespace Inject

/-- C6: parsing `inject:"inline"` in the inline-capable variant yields
the dedicated inline tag variant (not a named tag); a record-typed field
carrying it is recursed into by registering a synthetic private embedded
entry aliasing the field's own storage, with nothing assigned to the
field itself and no consultation of the named registry; and end to end,
the nested record's own tagged fields are populated in place even though
no object named "inline" exists anywhere. -/
theorem c6_inline_recursion :
    (gParseTag "inject:\"inline\"" = .ok (some gInjectInline) ∧ gInjectInline.name = "") ∧
    (∀ (env : Env) (st : GState) (oi base : Nat) (path : List Nat) (sid i : Nat)
        (fd : FieldDecl) (sid2 : Nat) (fv : Val),
      fd.fty = .tStruct sid2 →
      gParseTag fd.ftag = .ok (some gInjectInline) →
      fd.exported = true →
      heapRead st.heap base (path ++ [i]) = some fv →
      isNilOrZero fv fd.fty = true →
      gPopField env st oi base path sid i fd =
        provideOne
          { st with maxLevel :=
              if st.maxLevel < levelOf st oi + 1 then levelOf st oi + 1 else st.maxLevel }
          ⟨.tPtr (.tStruct sid2), .vPtr base (path ++ [i]), "", false, true,
            levelOf st oi + 1, false, true⟩ ∧
      (gPopField env st oi base path sid i fd).1.heap = st.heap) ∧
    (gPopulateLoop envInline 5 stInline 0).2 = none ∧
    (gPopulateLoop envInline 5 stInline 0).1.heap =
      [.vStruct 10 [.vStruct 11 [.vPtr 1 []]], .vStruct 12 []] ∧
    ((gPopulateLoop envInline 5 stInline 0).1.objs[1]?).map
      (fun o => (o.value, o.embedded, o.priv, o.name)) =
      some (.vPtr 0 [0], true, true, "") ∧
    stInline.named = [] := by
  refine ⟨⟨by rfl, by rfl⟩, ?_, by decide, by decide, by decide, by decide⟩
  intro env st oi base path sid i fd sid2 fv hfty hparse hexp hread hzero
  rw [hfty] at hzero
  constructor
  · simp [gPopField, hparse, hexp, hread, hzero, hfty, gInjectInline]
  · simp [gPopField, hparse, hexp, hread, hzero, hfty, gInjectInline, provideOne,
      isStructPtr]

/-- Witness for the hypothesised part of `c6_inline_recursion`,
instantiated at the concrete inline scenario. -/
theorem c6_inline_recursion_witness :
    gPopField envInline stInline 0 0 [] 10 0
        ⟨"Inline", .tStruct 11, "inject:\"inline\"", true, false⟩ =
      provideOne
        { stInline with maxLevel := 1 }
        ⟨.tPtr (.tStruct 11), .vPtr 0 [0], "", false, true, 1, false, true⟩ := by
  have h := (c6_inline_recursion.2.1 envInline stInline 0 0 [] 10 0
    ⟨"Inline", .tStruct 11, "inject:\"inline\"", true, false⟩ 11
    (.vStruct 11 [.vPtrNil]) (by rfl) (by rfl) (by rfl) (by rfl)
    (by rfl)).1
  simpa using h

/-- Lookup in a name map succeeds exactly for present keys. -/
theorem lookup_isSome_iff : ∀ (l : List (String × Nat)) (n : String),
    ((l.lookup n).isSome = true) ↔ n ∈ l.map Prod.fst
  | [], n => by simp
  | (k, v) :: rest, n => by
      by_cases h : n = k
      · subst h; simp [List.lookup]
      · have hbeq : (n == k) = false := by simp [h]
        simp [List.lookup, hbeq, h, lookup_isSome_iff rest n]

/-- At most one non-private unnamed entry per concrete type, stated
positionally over the unnamed index list. -/
def atMostOnePerType (st : GState) : Prop :=
  st.unnamed.Pairwise (fun a b => ∀ oa ob, st.objs[a]? = some oa → st.objs[b]? = some ob →
    oa.priv = false → ob.priv = false → oa.valueTy ≠ ob.valueTy)

/-- At most one entry per name. -/
def atMostOnePerName (st : GState) : Prop := (st.named.map Prod.fst).Nodup

/-- Registry invariant maintained by `Provide`: the two uniqueness
properties, the synchronisation of the `unnamedType` key set with the
non-private unnamed entries, and validity of the stored indices. -/
structure RegInv (st : GState) : Prop where
  uniqTy : atMostOnePerType st
  uniqName : atMostOnePerName st
  keysSync : ∀ t : Ty, t ∈ st.unnamedTypeKeys ↔
    ∃ j ∈ st.unnamed, ∃ o, st.objs[j]? = some o ∧ o.priv = false ∧ o.valueTy = t
  uIdx : ∀ j ∈ st.unnamed, j < st.objs.length

theorem regInv_empty : RegInv emptyG := by
  refine ⟨List.Pairwise.nil, List.nodup_nil, ?_, ?_⟩ <;> simp [emptyG]

theorem contains_iff_memTy : ∀ (l : List Ty) (t : Ty), l.contains t = true ↔ t ∈ l
  | [], t => by simp
  | a :: as, t => by
      simp [List.contains_cons, contains_iff_memTy as t]

theorem regInv_provideOne {st : GState} {o : Obj} {st' : GState}
    (hinv : RegInv st) (h : provideOne st o = (st', none)) : RegInv st' := by
  unfold provideOne at h
  split at h
  case isTrue hn =>
    split at h
    case isTrue hsp =>
      injection h with h1 h2
      exact Option.noConfusion h2
    case isFalse hsp =>
      split at h
      case isTrue hdup =>
        injection h with h1 h2
        exact Option.noConfusion h2
      case isFalse hdup =>
        injection h with h1 h2
        subst h1
        have hgood : o.priv = true ∨ o.valueTy ∉ st.unnamedTypeKeys := by
          cases hpo : o.priv with
          | true => exact Or.inl rfl
          | false =>
              right
              intro hmem
              have hcont : st.unnamedTypeKeys.contains o.valueTy = true :=
                (contains_iff_memTy _ _).mpr hmem
              exact hdup (by simp [hpo, hmem])
        have hobjN : (st.objs ++ [o])[st.objs.length]? = some o :=
          List.getElem?_concat_length st.objs o
        have hobjOld : ∀ j, j < st.objs.length → (st.objs ++ [o])[j]? = st.objs[j]? := by
          intro j hj
          rw [List.getElem?_append, if_pos hj]
        have memApp : ∀ j : Nat, j ∈ st.unnamed ++ [st.objs.length] ↔
            j ∈ st.unnamed ∨ j = st.objs.length := by
          intro j
          simp
        refine ⟨?_, hinv.uniqName, ?_, ?_⟩
        · unfold atMostOnePerType
          dsimp only
          rw [List.pairwise_append]
          refine ⟨?_, List.pairwise_singleton _ _, ?_⟩
          · refine List.Pairwise.imp_of_mem ?_ hinv.uniqTy
            intro a b ha hb hab oa ob hoa hob
            rw [hobjOld a (hinv.uIdx a ha)] at hoa
            rw [hobjOld b (hinv.uIdx b hb)] at hob
            exact hab oa ob hoa hob
          · intro a ha b hb
            have hbN : b = st.objs.length := by simpa using hb
            subst hbN
            intro oa ob hoa hob hpa hpb
            rw [hobjN] at hob
            cases hob
            rcases hgood with hp | hnk
            · rw [hp] at hpb
              exact absurd hpb (by simp)
            · intro hty
              exact hnk ((hinv.keysSync o.valueTy).mpr
                ⟨a, ha, oa, by rw [hobjOld a (hinv.uIdx a ha)] at hoa; exact hoa,
                  hpa, hty⟩)
        · intro t
          dsimp only
          cases hpo : o.priv with
          | true =>
              rw [if_pos rfl]
              rw [hinv.keysSync t]
              constructor
              · rintro ⟨j, hj, oj, hoj, hpj, htj⟩
                exact ⟨j, (memApp j).mpr (Or.inl hj), oj,
                  by rw [hobjOld j (hinv.uIdx j hj)]; exact hoj, hpj, htj⟩
              · rintro ⟨j, hj, oj, hoj, hpj, htj⟩
                rcases (memApp j).mp hj with hj' | hj'
                · exact ⟨j, hj', oj,
                    by rw [hobjOld j (hinv.uIdx j hj')] at hoj; exact hoj, hpj, htj⟩
                · subst hj'
                  rw [hobjN] at hoj
                  cases hoj
                  rw [hpo] at hpj
                  exact absurd hpj (by simp)
          | false =>
              rw [if_neg Bool.false_ne_true]
              rw [List.mem_append, List.mem_singleton]
              constructor
              · rintro (hk | hk)
                · rcases (hinv.keysSync t).mp hk with ⟨j, hj, oj, hoj, hpj, htj⟩
                  exact ⟨j, (memApp j).mpr (Or.inl hj), oj,
                    by rw [hobjOld j (hinv.uIdx j hj)]; exact hoj, hpj, htj⟩
                · subst hk
                  exact ⟨st.objs.length, (memApp _).mpr (Or.inr rfl), o, hobjN, hpo, rfl⟩
              · rintro ⟨j, hj, oj, hoj, hpj, htj⟩
                rcases (memApp j).mp hj with hj' | hj'
                · left
                  exact (hinv.keysSync t).mpr ⟨j, hj', oj,
                    by rw [hobjOld j (hinv.uIdx j hj')] at hoj; exact hoj, hpj, htj⟩
                · right
                  subst hj'
                  rw [hobjN] at hoj
                  cases hoj
                  exact htj.symm
        · intro j hj
          dsimp only at hj ⊢
          rcases (memApp j).mp hj with hj' | hj'
          · have := hinv.uIdx j hj'
            simp only [List.length_append, List.length_cons, List.length_nil]
            omega
          · subst hj'
            simp
  case isFalse hn =>
    split at h
    case isTrue hlook =>
      injection h with h1 h2
      exact Option.noConfusion h2
    case isFalse hlook =>
      injection h with h1 h2
      subst h1
      have hobjOld : ∀ j, j < st.objs.length → (st.objs ++ [o])[j]? = st.objs[j]? := by
        intro j hj
        rw [List.getElem?_append, if_pos hj]
      refine ⟨?_, ?_, ?_, ?_⟩
      · unfold atMostOnePerType
        dsimp only
        refine List.Pairwise.imp_of_mem ?_ hinv.uniqTy
        intro a b ha hb hab oa ob hoa hob
        rw [hobjOld a (hinv.uIdx a ha)] at hoa
        rw [hobjOld b (hinv.uIdx b hb)] at hob
        exact hab oa ob hoa hob
      · unfold atMostOnePerName
        dsimp only
        simp only [List.map_append, List.map_cons, List.map_nil]
        rw [List.nodup_append]
        refine ⟨hinv.uniqName, List.nodup_singleton _, ?_⟩
        intro a ha hb
        have hae : a = o.name := by simpa using hb
        subst hae
        have hnm : o.name ∉ st.named.map Prod.fst := by
          intro hmem
          exact hlook ((lookup_isSome_iff st.named o.name).mpr hmem)
        exact hnm ha
      · intro t
        dsimp only
        rw [hinv.keysSync t]
        constructor
        · rintro ⟨j, hj, oj, hoj, hpj, htj⟩
          exact ⟨j, hj, oj, by rw [hobjOld j (hinv.uIdx j hj)]; exact hoj, hpj, htj⟩
        · rintro ⟨j, hj, oj, hoj, hpj, htj⟩
          exact ⟨j, hj, oj, by rw [hobjOld j (hinv.uIdx j hj)] at hoj; exact hoj, hpj, htj⟩
      · intro j hj
        dsimp only at hj ⊢
        have := hinv.uIdx j hj
        simp only [List.length_append, List.length_cons, List.length_nil]
        omega

theorem regInv_provideList : ∀ (os : List Obj) (st st' : GState),
    RegInv st → provideList st os = (st', none) → RegInv st'
  | [], st, st', hinv, h => by
      simp only [provideList, Prod.mk.injEq] at h
      exact h.1 ▸ hinv
  | o :: os, st, st', hinv, h => by
      simp only [provideList] at h
      rcases hPO : provideOne st o with ⟨st1, e?⟩
      rw [hPO] at h
      cases e? with
      | some e => simp [pbind] at h
      | none =>
          simp only [pbind] at h
          exact regInv_provideList os st1 st' (regInv_provideOne hinv hPO) h

/-- First-match semantics of the pass-1 scan: `findAssignable` is the
first index in list order whose object is non-private and assignable. -/
theorem findAssignable_eq_find? : ∀ (env : Env) (objs : List Obj) (ft : Ty) (l : List Nat),
    findAssignable env objs ft l =
      l.find? (fun j =>
        match objs[j]? with
        | some e => !e.priv && assignableTo env e.valueTy ft
        | none => false)
  | env, objs, ft, [] => rfl
  | env, objs, ft, j :: rest => by
      unfold findAssignable
      rcases hoj : objs[j]? with - | e
      · simp [List.find?, hoj, findAssignable_eq_find? env objs ft rest]
      · cases hp : e.priv with
        | true => simp [List.find?, hoj, hp, findAssignable_eq_find? env objs ft rest]
        | false =>
            cases ha : assignableTo env e.valueTy ft with
            | true => simp [List.find?, hoj, hp, ha]
            | false => simp [List.find?, hoj, hp, ha, findAssignable_eq_find? env objs ft rest]

/-- C4: `Provide` rejects unnamed non-struct-pointer values, duplicate
non-private unnamed concrete types and duplicate names, registers
objects otherwise, and every sequence of `Provide` calls on a fresh
graph maintains at most one non-private unnamed entry per concrete type
and at most one entry per name. -/
theorem c4_provide_registry :
    (∀ (st : GState) (o : Obj), o.name = "" → isStructPtr o.valueTy = false →
      provideOne st o = (st, some (.notAStructReference o.valueTy o.value))) ∧
    (∀ (st : GState) (o : Obj), o.name = "" → isStructPtr o.valueTy = true →
      o.priv = false → o.valueTy ∈ st.unnamedTypeKeys →
      provideOne st o = (st, some (.duplicateUnnamedType o.valueTy))) ∧
    (∀ (st : GState) (o : Obj), o.name ≠ "" → (st.named.lookup o.name).isSome = true →
      provideOne st o = (st, some (.duplicateName o.name))) ∧
    (∀ (st : GState) (o : Obj), o.name = "" → isStructPtr o.valueTy = true →
      (o.priv = true ∨ o.valueTy ∉ st.unnamedTypeKeys) →
      provideOne st o =
        ({ st with objs := st.objs ++ [o],
                   unnamed := st.unnamed ++ [st.objs.length],
                   unnamedTypeKeys := if o.priv then st.unnamedTypeKeys
                     else st.unnamedTypeKeys ++ [o.valueTy] }, none)) ∧
    (∀ (st : GState) (o : Obj), o.name ≠ "" → (st.named.lookup o.name).isSome = false →
      provideOne st o =
        ({ st with objs := st.objs ++ [o],
                   named := st.named ++ [(o.name, st.objs.length)] }, none)) ∧
    (∀ (os : List Obj) (st' : GState), provideList emptyG os = (st', none) →
      atMostOnePerType st' ∧ atMostOnePerName st') := by
  refine ⟨?_, ?_, ?_, ?_, ?_, ?_⟩
  · intro st o hn hsp
    simp [provideOne, hn, hsp]
  · intro st o hn hsp hp hmem
    simp [provideOne, hn, hsp, hp, hmem]
  · intro st o hn hlook
    simp [provideOne, hn, hlook]
  · intro st o hn hsp hgood
    rcases hgood with hp | hnk
    · simp [provideOne, hn, hsp, hp]
    · simp [provideOne, hn, hsp, hnk]
  · intro st o hn hlook
    simp [provideOne, hn, hlook]
  · intro os st' h
    have hinv := regInv_provideList os emptyG st' regInv_empty h
    exact ⟨hinv.uniqTy, hinv.uniqName⟩

/-- Witness for `c4_provide_registry` at concrete inputs: a non-struct
unnamed provide is rejected; providing two distinct struct pointers then
checking the uniqueness invariants. -/
theorem c4_provide_registry_witness :
    provideOne emptyG (mkObj .tInt (.vInt 5) "" false) =
      (emptyG, some (.notAStructReference .tInt (.vInt 5))) ∧
    provideOne emptyG (mkObj (.tPtr (.tStruct 0)) (.vPtr 0 []) "" false) =
      ({ emptyG with objs := [mkObj (.tPtr (.tStruct 0)) (.vPtr 0 []) "" false],
                     unnamed := [0],
                     unnamedTypeKeys := [.tPtr (.tStruct 0)] }, none) := by
  constructor
  · exact c4_provide_registry.1 emptyG (mkObj .tInt (.vInt 5) "" false) rfl rfl
  · have h := c4_provide_registry.2.2.2.1 emptyG
      (mkObj (.tPtr (.tStruct 0)) (.vPtr 0 []) "" false) rfl rfl
      (Or.inr (by simp [emptyG]))
    simpa [emptyG, mkObj] using h

/-- Environment for the singleton-sharing scenario: struct 0 is
`A .. X *C inject:"" ..`, struct 1 is `B .. Y *C inject:"" ..`, struct 2
is `C ..` (no fields). -/
def envShare : Env := {
  fields := fun sid =>
    if sid = 0 then [⟨"X", .tPtr (.tStruct 2), "inject:\"\"", true, false⟩]
    else if sid = 1 then [⟨"Y", .tPtr (.tStruct 2), "inject:\"\"", true, false⟩]
    else []
  impls := fun _ _ => false
  depth := 3 }

/-- Seed graph for the singleton-sharing scenario: `*A` and `*B`
provided unnamed, heap holding their zeroed structs. -/
def stShare : GState :=
  { (provideList emptyG
      [mkObj (.tPtr (.tStruct 0)) (.vPtr 0 []) "" false,
       mkObj (.tPtr (.tStruct 1)) (.vPtr 1 []) "" false]).1 with
    heap := [.vStruct 0 [.vPtrNil], .vStruct 1 [.vPtrNil]] }

/-- C1: a still-empty plain-tagged struct-pointer field is wired to the
first (in registration order) non-private assignable unnamed entry when
one exists, and otherwise a fresh zero-valued instance is created,
registered through `Provide` as a non-private unnamed entry, and wired;
in the concrete two-consumer scenario both plain-tagged `*C` fields end
up holding the identical instance (the same heap location). -/
theorem c1_first_match_or_create :
    (∀ (env : Env) (st : GState) (oi base : Nat) (path : List Nat) (sid i : Nat)
        (fd : FieldDecl) (k : Nat) (fv : Val),
      fd.fty = .tPtr (.tStruct k) →
      parseTag fd.ftag = .ok (some injectOnly) →
      fd.exported = true →
      heapRead st.heap base (path ++ [i]) = some fv →
      isNilOrZero fv fd.fty = true →
      (∀ (j : Nat) (e : Obj),
        findAssignable env st.objs (.tPtr (.tStruct k)) st.unnamed = some j →
        st.objs[j]? = some e →
        popField env st oi base path sid i fd =
          (updateLevel
            { st with
                heap := heapWrite st.heap base (path ++ [i])
                          (setVal (.tPtr (.tStruct k)) e.valueTy e.value) } oi j, none)) ∧
      (findAssignable env st.objs (.tPtr (.tStruct k)) st.unnamed = none →
        popField env st oi base path sid i fd =
          pbind (provideOne
              { st with heap := st.heap ++ [zeroVal env env.depth (.tStruct k)],
                        maxLevel := if st.maxLevel < levelOf st oi + 1
                          then levelOf st oi + 1 else st.maxLevel }
              ⟨.tPtr (.tStruct k), .vPtr st.heap.length [], "", false, false,
                levelOf st oi + 1, true, false⟩)
            (fun st2 =>
              ({ st2 with
                  heap := heapWrite st2.heap base (path ++ [i])
                            (.vPtr st.heap.length []) }, none)))) ∧
    (populateG envShare 10 stShare).2 = none ∧
    (populateG envShare 10 stShare).1.heap =
      [.vStruct 0 [.vPtr 2 []], .vStruct 1 [.vPtr 2 []], .vStruct 2 []] ∧
    ((populateG envShare 10 stShare).1.objs[2]?).map
      (fun o => (o.valueTy, o.value, o.priv, o.name, o.created)) =
      some (.tPtr (.tStruct 2), .vPtr 2 [], false, "", true) := by
  refine ⟨?_, by decide, by decide, by decide⟩
  intro env st oi base path sid i fd k fv hfty hparse hexp hread hzero
  rw [hfty] at hzero
  constructor
  · intro j e hfind hje
    simp [popField, hparse, hexp, hread, hzero, hfty, injectOnly, injectPrivate,
      hfind, hje]
  · intro hfind
    simp [popField, hparse, hexp, hread, hzero, hfty, injectOnly, injectPrivate,
      hfind, (by decide : (STag.mk "" false == STag.mk "" true) = false)]

/-- Witness for `c1_first_match_or_create`: the create branch on the
seed scenario (no `*C` entry exists yet for `A.X`). -/
theorem c1_first_match_or_create_witness :
    popField envShare stShare 0 0 [] 0 0
        ⟨"X", .tPtr (.tStruct 2), "inject:\"\"", true, false⟩ =
      pbind (provideOne
          { stShare with heap := stShare.heap ++ [.vStruct 2 []], maxLevel := 1 }
          ⟨.tPtr (.tStruct 2), .vPtr 2 [], "", false, false, 1, true, false⟩)
        (fun st2 => ({ st2 with heap := heapWrite st2.heap 0 [0] (.vPtr 2 []) }, none)) := by
  have h := ((c1_first_match_or_create.1 envShare stShare 0 0 [] 0 0
    ⟨"X", .tPtr (.tStruct 2), "inject:\"\"", true, false⟩ 2 .vPtrNil
    (by rfl) (by rfl) (by rfl) (by rfl) (by rfl)).2 (by rfl))
  rw [h]
  decide

/-- Candidate predicate of both scans: the object at index `j` is
present, non-private and assignable to the field type. -/
def scanPred (env : Env) (objs : List Obj) (ft : Ty) (j : Nat) : Bool :=
  match objs[j]? with
  | some e => !e.priv && assignableTo env e.valueTy ft
  | none => false

/-- Everything except the mutable `level` of every stored object is
untouched by `updateLevel`. -/
theorem updateLevel_objs_shape (st : GState) (a b j : Nat) :
    ((updateLevel st a b).objs[j]?).map
        (fun o => (o.valueTy, o.value, o.priv, o.name, o.complete, o.created, o.embedded)) =
      (st.objs[j]?).map
        (fun o => (o.valueTy, o.value, o.priv, o.name, o.complete, o.created, o.embedded)) := by
  unfold updateLevel
  rcases hb : st.objs[b]? with - | d
  · rfl
  · dsimp only
    split
    · rfl
    · dsimp only
      rw [List.getElem?_set]
      by_cases hjb : b = j
      · subst hjb
        have hlen : b < st.objs.length := by
          by_contra hge
          rw [List.getElem?_eq_none (Nat.le_of_not_lt hge)] at hb
          exact Option.noConfusion hb
        rw [if_pos rfl, if_pos hlen, hb]
        rfl
      · rw [if_neg hjb]

/-- `scanPred` is invariant under `updateLevel`. -/
theorem scanPred_updateLevel (env : Env) (st : GState) (a b : Nat) (ft : Ty) (j : Nat) :
    scanPred env (updateLevel st a b).objs ft j = scanPred env st.objs ft j := by
  unfold scanPred
  have h := updateLevel_objs_shape st a b j
  rcases h1 : (updateLevel st a b).objs[j]? with - | e1
  · rcases h2 : st.objs[j]? with - | e2
    · rfl
    · rw [h1, h2] at h
      simp at h
  · rcases h2 : st.objs[j]? with - | e2
    · rw [h1, h2] at h
      simp at h
    · rw [h1, h2] at h
      simp only [Option.map_some, Option.map_some', Option.some.injEq, Prod.mk.injEq] at h
      dsimp only
      rw [h.1, h.2.2.1]

/-- Tail of the interface scan after the first match has been wired:
no further assignable entry returns success; a further assignable entry
is the two-candidates error reporting the wired and the new entry. -/
theorem ifaceScan_found : ∀ (l : List Nat) (env : Env) (st : GState) (oi base : Nat)
    (path : List Nat) (i : Nat) (fty : Ty) (fname : String) (ownerTy : Ty) (fj : Nat),
    (l.filter (scanPred env st.objs fty) = [] →
      ifaceScan env st oi base path i fty fname ownerTy (some fj) l = (st, none)) ∧
    (∀ (j2 : Nat) (r : List Nat) (fo e2 : Obj),
      l.filter (scanPred env st.objs fty) = j2 :: r →
      st.objs[fj]? = some fo → st.objs[j2]? = some e2 →
      ifaceScan env st oi base path i fty fname ownerTy (some fj) l =
        (st, some (.twoAssignable fname ownerTy fo.valueTy fo.value e2.valueTy e2.value)))
  | [], env, st, oi, base, path, i, fty, fname, ownerTy, fj => by
      constructor
      · intro _
        rfl
      · intro j2 r fo e2 hf
        simp at hf
  | j :: rest, env, st, oi, base, path, i, fty, fname, ownerTy, fj => by
      have ih := ifaceScan_found rest env st oi base path i fty fname ownerTy fj
      constructor
      · intro hf
        rw [List.filter_cons] at hf
        unfold ifaceScan
        rcases hoj : st.objs[j]? with - | e
        · unfold scanPred at hf
          rw [hoj] at hf
          simp only [Bool.false_eq_true, if_false] at hf
          exact ih.1 hf
        · have hpred : scanPred env st.objs fty j = (!e.priv && assignableTo env e.valueTy fty) := by
            unfold scanPred
            rw [hoj]
          rw [hpred] at hf
          dsimp only
          cases hpriv : e.priv with
          | true =>
              rw [hpriv] at hf
              simp only [Bool.not_true, Bool.false_and, Bool.false_eq_true, if_false] at hf
              rw [if_pos rfl]
              exact ih.1 hf
          | false =>
              rw [hpriv] at hf
              rw [if_neg Bool.false_ne_true]
              cases hass : assignableTo env e.valueTy fty with
              | true =>
                  rw [hass] at hf
                  simp at hf
              | false =>
                  rw [hass] at hf
                  simp only [Bool.not_false, Bool.true_and, Bool.false_eq_true, if_false] at hf
                  rw [if_neg Bool.false_ne_true]
                  exact ih.1 hf
      · intro j2 r fo e2 hf hfo he2
        rw [List.filter_cons] at hf
        unfold ifaceScan
        rcases hoj : st.objs[j]? with - | e
        · unfold scanPred at hf
          rw [hoj] at hf
          simp only [Bool.false_eq_true, if_false] at hf
          exact ih.2 j2 r fo e2 hf hfo he2
        · have hpred : scanPred env st.objs fty j = (!e.priv && assignableTo env e.valueTy fty) := by
            unfold scanPred
            rw [hoj]
          rw [hpred] at hf
          dsimp only
          cases hpriv : e.priv with
          | true =>
              rw [hpriv] at hf
              simp only [Bool.not_true, Bool.false_and, Bool.false_eq_true, if_false] at hf
              rw [if_pos rfl]
              exact ih.2 j2 r fo e2 hf hfo he2
          | false =>
              rw [hpriv] at hf
              rw [if_neg Bool.false_ne_true]
              cases hass : assignableTo env e.valueTy fty with
              | true =>
                  rw [hass] at hf
                  simp only [Bool.not_false, Bool.true_and, if_true] at hf
                  injection hf with hj hr
                  subst hj
                  rw [if_pos rfl]
                  rw [hfo]
                  rw [hoj] at he2
                  injection he2 with he
                  subst he
                  rfl
              | false =>
                  rw [hass] at hf
                  simp only [Bool.not_false, Bool.true_and, Bool.false_eq_true, if_false] at hf
                  rw [if_neg Bool.false_ne_true]
                  exact ih.2 j2 r fo e2 hf hfo he2

/-- Full interface-scan trichotomy from an empty accumulator: zero
assignable candidates fail with the no-assignable-value error, exactly
one wires it (with a depends-on edge), two or more fail with the
two-candidates error naming both. -/
theorem ifaceScan_none : ∀ (l : List Nat) (env : Env) (st : GState) (oi base : Nat)
    (path : List Nat) (i : Nat) (fty : Ty) (fname : String) (ownerTy : Ty),
    (l.filter (scanPred env st.objs fty) = [] →
      ifaceScan env st oi base path i fty fname ownerTy none l =
        (st, some (.noAssignable fname ownerTy))) ∧
    (∀ (j : Nat) (e : Obj), l.filter (scanPred env st.objs fty) = [j] →
      st.objs[j]? = some e →
      ifaceScan env st oi base path i fty fname ownerTy none l =
        (updateLevel
          { st with
              heap := heapWrite st.heap base (path ++ [i])
                        (setVal fty e.valueTy e.value) } oi j, none)) ∧
    (∀ (j1 j2 : Nat) (r : List Nat) (e1 e2 : Obj),
      l.filter (scanPred env st.objs fty) = j1 :: j2 :: r →
      st.objs[j1]? = some e1 → st.objs[j2]? = some e2 →
      ifaceScan env st oi base path i fty fname ownerTy none l =
        (updateLevel
          { st with
              heap := heapWrite st.heap base (path ++ [i])
                        (setVal fty e1.valueTy e1.value) } oi j1,
         some (.twoAssignable fname ownerTy e1.valueTy e1.value e2.valueTy e2.value)))
  | [], env, st, oi, base, path, i, fty, fname, ownerTy => by
      refine ⟨fun _ => rfl, ?_, ?_⟩
      · intro j e hf
        simp at hf
      · intro j1 j2 r e1 e2 hf
        simp at hf
  | j0 :: rest, env, st, oi, base, path, i, fty, fname, ownerTy => by
      have ih := ifaceScan_none rest env st oi base path i fty fname ownerTy
      refine ⟨?_, ?_, ?_⟩
      · intro hf
        rw [List.filter_cons] at hf
        unfold ifaceScan
        rcases hoj : st.objs[j0]? with - | e
        · unfold scanPred at hf
          rw [hoj] at hf
          simp only [Bool.false_eq_true, if_false] at hf
          exact ih.1 hf
        · have hpred : scanPred env st.objs fty j0 = (!e.priv && assignableTo env e.valueTy fty) := by
            unfold scanPred
            rw [hoj]
          rw [hpred] at hf
          dsimp only
          cases hpriv : e.priv with
          | true =>
              rw [hpriv] at hf
              simp only [Bool.not_true, Bool.false_and, Bool.false_eq_true, if_false] at hf
              rw [if_pos rfl]
              exact ih.1 hf
          | false =>
              rw [hpriv] at hf
              rw [if_neg Bool.false_ne_true]
              cases hass : assignableTo env e.valueTy fty with
              | true =>
                  rw [hass] at hf
                  simp at hf
              | false =>
                  rw [hass] at hf
                  simp only [Bool.not_false, Bool.true_and, Bool.false_eq_true, if_false] at hf
                  rw [if_neg Bool.false_ne_true]
                  exact ih.1 hf
      · intro j e hf hje
        rw [List.filter_cons] at hf
        unfold ifaceScan
        rcases hoj : st.objs[j0]? with - | e0
        · unfold scanPred at hf
          rw [hoj] at hf
          simp only [Bool.false_eq_true, if_false] at hf
          exact ih.2.1 j e hf hje
        · have hpred : scanPred env st.objs fty j0 = (!e0.priv && assignableTo env e0.valueTy fty) := by
            unfold scanPred
            rw [hoj]
          rw [hpred] at hf
          dsimp only
          cases hpriv : e0.priv with
          | true =>
              rw [hpriv] at hf
              simp only [Bool.not_true, Bool.false_and, Bool.false_eq_true, if_false] at hf
              rw [if_pos rfl]
              exact ih.2.1 j e hf hje
          | false =>
              rw [hpriv] at hf
              rw [if_neg Bool.false_ne_true]
              cases hass : assignableTo env e0.valueTy fty with
              | true =>
                  rw [hass] at hf
                  simp only [Bool.not_false, Bool.true_and, if_true] at hf
                  injection hf with hj hr
                  subst hj
                  rw [hoj] at hje
                  injection hje with he
                  subst he
                  rw [if_pos rfl]
                  set st2 := updateLevel
                    { st with
                        heap := heapWrite st.heap base (path ++ [i])
                                  (setVal fty e0.valueTy e0.value) } oi j0 with hst2
                  have hsame : ∀ x, scanPred env st2.objs fty x = scanPred env st.objs fty x := by
                    intro x
                    rw [hst2]
                    exact scanPred_updateLevel env _ oi j0 fty x
                  have hfr : rest.filter (scanPred env st2.objs fty) = [] := by
                    rw [List.filter_congr (fun x _ => hsame x)]
                    exact hr
                  exact (ifaceScan_found rest env st2 oi base path i fty fname ownerTy j0).1 hfr
              | false =>
                  rw [hass] at hf
                  simp only [Bool.not_false, Bool.true_and, Bool.false_eq_true, if_false] at hf
                  rw [if_neg Bool.false_ne_true]
                  exact ih.2.1 j e hf hje
      · intro j1 j2 r e1 e2 hf hje1 hje2
        rw [List.filter_cons] at hf
        unfold ifaceScan
        rcases hoj : st.objs[j0]? with - | e0
        · unfold scanPred at hf
          rw [hoj] at hf
          simp only [Bool.false_eq_true, if_false] at hf
          exact ih.2.2 j1 j2 r e1 e2 hf hje1 hje2
        · have hpred : scanPred env st.objs fty j0 = (!e0.priv && assignableTo env e0.valueTy fty) := by
            unfold scanPred
            rw [hoj]
          rw [hpred] at hf
          dsimp only
          cases hpriv : e0.priv with
          | true =>
              rw [hpriv] at hf
              simp only [Bool.not_true, Bool.false_and, Bool.false_eq_true, if_false] at hf
              rw [if_pos rfl]
              exact ih.2.2 j1 j2 r e1 e2 hf hje1 hje2
          | false =>
              rw [hpriv] at hf
              rw [if_neg Bool.false_ne_true]
              cases hass : assignableTo env e0.valueTy fty with
              | true =>
                  rw [hass] at hf
                  simp only [Bool.not_false, Bool.true_and, if_true] at hf
                  injection hf with hj hr
                  subst hj
                  rw [hoj] at hje1
                  injection hje1 with he
                  subst he
                  rw [if_pos rfl]
                  set st2 := updateLevel
                    { st with
                        heap := heapWrite st.heap base (path ++ [i])
                                  (setVal fty e0.valueTy e0.value) } oi j0 with hst2
                  have hsame : ∀ x, scanPred env st2.objs fty x = scanPred env st.objs fty x := by
                    intro x
                    rw [hst2]
                    exact scanPred_updateLevel env _ oi j0 fty x
                  have hfr : rest.filter (scanPred env st2.objs fty) = j2 :: r := by
                    rw [List.filter_congr (fun x _ => hsame x)]
                    exact hr
                  have hshape1 := updateLevel_objs_shape
                    { st with
                        heap := heapWrite st.heap base (path ++ [i])
                                  (setVal fty e0.valueTy e0.value) } oi j0 j0
                  have hshape2 := updateLevel_objs_shape
                    { st with
                        heap := heapWrite st.heap base (path ++ [i])
                                  (setVal fty e0.valueTy e0.value) } oi j0 j2
                  rcases hf1 : st2.objs[j0]? with - | fo
                  · rw [← hst2] at hshape1
                    rw [hf1] at hshape1
                    dsimp only at hshape1
                    rw [hoj] at hshape1
                    simp at hshape1
                  · rcases hf2 : st2.objs[j2]? with - | fo2
                    · rw [← hst2] at hshape2
                      rw [hf2] at hshape2
                      dsimp only at hshape2
                      rw [hje2] at hshape2
                      simp at hshape2
                    · rw [← hst2] at hshape1 hshape2
                      rw [hf1] at hshape1
                      rw [hf2] at hshape2
                      dsimp only at hshape1 hshape2
                      rw [hoj] at hshape1
                      rw [hje2] at hshape2
                      simp only [Option.map_some, Option.map_some', Option.some.injEq,
                        Prod.mk.injEq] at hshape1 hshape2
                      have h := (ifaceScan_found rest env st2 oi base path i fty fname
                        ownerTy j0).2 j2 r fo fo2 hfr hf1 hf2
                      rw [h]
                      rw [hshape1.1, hshape1.2.1, hshape2.1, hshape2.2.1]
              | false =>
                  rw [hass] at hf
                  simp only [Bool.not_false, Bool.true_and, Bool.false_eq_true, if_false] at hf
                  rw [if_neg Bool.false_ne_true]
                  exact ih.2.2 j1 j2 r e1 e2 hf hje1 hje2

/-- Environment for the capability scenarios: struct 20 is
`D .. I Answerable inject:"" ..` (interface 0); structs 21 and 22 are two
concrete types whose pointers both implement interface 0. -/
def envIface : Env := {
  fields := fun sid =>
    if sid = 20 then [⟨"I", .tIface 0, "inject:\"\"", true, false⟩]
    else []
  impls := fun t iid =>
    iid == 0 && (t == .tPtr (.tStruct 21) || t == .tPtr (.tStruct 22))
  depth := 3 }

/-- Capability scenario with no assignable entry. -/
def stIface0 : GState :=
  { (provideList emptyG [mkObj (.tPtr (.tStruct 20)) (.vPtr 0 []) "" false]).1 with
    heap := [.vStruct 20 [.vIfaceNil]] }

/-- Capability scenario with exactly one assignable entry. -/
def stIface1 : GState :=
  { (provideList emptyG
      [mkObj (.tPtr (.tStruct 20)) (.vPtr 0 []) "" false,
       mkObj (.tPtr (.tStruct 21)) (.vPtr 1 []) "" false]).1 with
    heap := [.vStruct 20 [.vIfaceNil], .vStruct 21 []] }

/-- Capability scenario with two assignable entries. -/
def stIface2 : GState :=
  { (provideList emptyG
      [mkObj (.tPtr (.tStruct 20)) (.vPtr 0 []) "" false,
       mkObj (.tPtr (.tStruct 21)) (.vPtr 1 []) "" false,
       mkObj (.tPtr (.tStruct 22)) (.vPtr 2 []) "" false]).1 with
    heap := [.vStruct 20 [.vIfaceNil], .vStruct 21 [], .vStruct 22 []] }

/-- C2: pass 2 on a still-empty plain-tagged interface field scans the
non-private unnamed entries; exactly one assignable entry wires the
field and records a depends-on edge; zero assignable entries fail with
the no-assignable-value error naming the field and owning type; two or
more fail with the two-candidates error reporting both conflicting
candidates' types and values.  The three concrete graphs exercise all
three outcomes end to end through `Populate`. -/
theorem c2_capability_trichotomy :
    (∀ (env : Env) (st : GState) (oi base : Nat) (path : List Nat) (sid i : Nat)
        (fd : FieldDecl) (iid : Nat) (fv : Val),
      fd.fty = .tIface iid →
      parseTag fd.ftag = .ok (some injectOnly) →
      heapRead st.heap base (path ++ [i]) = some fv →
      isNilOrZero fv fd.fty = true →
      (st.unnamed.filter (scanPred env st.objs (.tIface iid)) = [] →
        popFieldIface env st oi base path sid i fd =
          (st, some (.noAssignable fd.fname (.tPtr (.tStruct sid))))) ∧
      (∀ (j : Nat) (e : Obj),
        st.unnamed.filter (scanPred env st.objs (.tIface iid)) = [j] →
        st.objs[j]? = some e →
        popFieldIface env st oi base path sid i fd =
          (updateLevel
            { st with
                heap := heapWrite st.heap base (path ++ [i])
                          (setVal (.tIface iid) e.valueTy e.value) } oi j, none)) ∧
      (∀ (j1 j2 : Nat) (r : List Nat) (e1 e2 : Obj),
        st.unnamed.filter (scanPred env st.objs (.tIface iid)) = j1 :: j2 :: r →
        st.objs[j1]? = some e1 → st.objs[j2]? = some e2 →
        popFieldIface env st oi base path sid i fd =
          (updateLevel
            { st with
                heap := heapWrite st.heap base (path ++ [i])
                          (setVal (.tIface iid) e1.valueTy e1.value) } oi j1,
           some (.twoAssignable fd.fname (.tPtr (.tStruct sid))
                  e1.valueTy e1.value e2.valueTy e2.value)))) ∧
    (populateG envIface 10 stIface0).2 =
      some (.noAssignable "I" (.tPtr (.tStruct 20))) ∧
    (populateG envIface 10 stIface1).2 = none ∧
    (populateG envIface 10 stIface1).1.heap =
      [.vStruct 20 [.vIface (.tPtr (.tStruct 21)) (.vPtr 1 [])], .vStruct 21 []] ∧
    (populateG envIface 10 stIface2).2 =
      some (.twoAssignable "I" (.tPtr (.tStruct 20))
        (.tPtr (.tStruct 21)) (.vPtr 1 []) (.tPtr (.tStruct 22)) (.vPtr 2 [])) := by
  refine ⟨?_, by decide, by decide, by decide, by decide⟩
  intro env st oi base path sid i fd iid fv hfty hparse hread hzero
  rw [hfty] at hzero
  have hred : popFieldIface env st oi base path sid i fd =
      ifaceScan env st oi base path i (.tIface iid) fd.fname (.tPtr (.tStruct sid))
        none st.unnamed := by
    simp [popFieldIface, hparse, hfty, hread, hzero, injectOnly, injectPrivate,
      (by decide : (STag.mk "" false == STag.mk "" true) = false),
      (by decide : (STag.mk "" false = STag.mk "" true) = False)]
  refine ⟨?_, ?_, ?_⟩
  · intro hf
    rw [hred]
    exact (ifaceScan_none st.unnamed env st oi base path i (.tIface iid) fd.fname
      (.tPtr (.tStruct sid))).1 hf
  · intro j e hf hje
    rw [hred]
    exact (ifaceScan_none st.unnamed env st oi base path i (.tIface iid) fd.fname
      (.tPtr (.tStruct sid))).2.1 j e hf hje
  · intro j1 j2 r e1 e2 hf h1 h2
    rw [hred]
    exact (ifaceScan_none st.unnamed env st oi base path i (.tIface iid) fd.fname
      (.tPtr (.tStruct sid))).2.2 j1 j2 r e1 e2 hf h1 h2

/-- Witness for `c2_capability_trichotomy`: the zero-candidates case at
the concrete no-provider scenario. -/
theorem c2_capability_trichotomy_witness :
    popFieldIface envIface stIface0 0 0 [] 20 0
        ⟨"I", .tIface 0, "inject:\"\"", true, false⟩ =
      (stIface0, some (.noAssignable "I" (.tPtr (.tStruct 20)))) := by
  have h := (c2_capability_trichotomy.1 envIface stIface0 0 0 [] 20 0
    ⟨"I", .tIface 0, "inject:\"\"", true, false⟩ 0 .vIfaceNil
    (by rfl) (by rfl) (by rfl) (by rfl)).1 (by rfl)
  exact h

/-- A successful scan result is never a private entry. -/
theorem findAssignable_not_priv : ∀ (env : Env) (objs : List Obj) (ft : Ty)
    (l : List Nat) (j : Nat),
    findAssignable env objs ft l = some j →
    ∃ e, objs[j]? = some e ∧ e.priv = false ∧ assignableTo env e.valueTy ft = true
  | env, objs, ft, [], j => by
      intro h
      exact Option.noConfusion h
  | env, objs, ft, j0 :: rest, j => by
      intro h
      unfold findAssignable at h
      rcases hoj : objs[j0]? with - | e
      · rw [hoj] at h
        exact findAssignable_not_priv env objs ft rest j h
      · rw [hoj] at h
        dsimp only at h
        cases hpriv : e.priv with
        | true =>
            rw [hpriv] at h
            simp only [if_true] at h
            exact findAssignable_not_priv env objs ft rest j h
        | false =>
            rw [hpriv] at h
            simp only [Bool.false_eq_true, if_false] at h
            cases hass : assignableTo env e.valueTy ft with
            | true =>
                rw [hass] at h
                simp only [if_true, Option.some.injEq] at h
                subst h
                exact ⟨e, hoj, hpriv, hass⟩
            | false =>
                rw [hass] at h
                simp only [Bool.false_eq_true, if_false] at h
                exact findAssignable_not_priv env objs ft rest j h

/-- Environment for the private-isolation scenario: struct 30 is
`A .. P *C inject:"private" ..`, struct 31 is `B .. Q *C inject:"" ..`,
struct 32 is `C ..`; struct 33 is `D .. I Answerable inject:"" ..` where
only `*C` implements interface 1. -/
def envPriv : Env := {
  fields := fun sid =>
    if sid = 30 then [⟨"P", .tPtr (.tStruct 32), "inject:\"private\"", true, false⟩]
    else if sid = 31 then [⟨"Q", .tPtr (.tStruct 32), "inject:\"\"", true, false⟩]
    else if sid = 33 then [⟨"I", .tIface 1, "inject:\"\"", true, false⟩]
    else []
  impls := fun t iid => iid == 1 && t == .tPtr (.tStruct 32)
  depth := 3 }

/-- Seed for the private-isolation scenario: `*A` and `*B`. -/
def stPriv : GState :=
  { (provideList emptyG
      [mkObj (.tPtr (.tStruct 30)) (.vPtr 0 []) "" false,
       mkObj (.tPtr (.tStruct 31)) (.vPtr 1 []) "" false]).1 with
    heap := [.vStruct 30 [.vPtrNil], .vStruct 31 [.vPtrNil]] }

/-- Seed for the pass-2 private-skipping scenario: `*A` (whose private
field will create a private `*C`) and `*D` (whose interface field needs
an assignable entry). -/
def stPriv2 : GState :=
  { (provideList emptyG
      [mkObj (.tPtr (.tStruct 30)) (.vPtr 0 []) "" false,
       mkObj (.tPtr (.tStruct 33)) (.vPtr 1 []) "" false]).1 with
    heap := [.vStruct 30 [.vPtrNil], .vStruct 33 [.vIfaceNil]] }

/-- C5: a still-empty private-tagged struct-pointer field never consults
the registry scan — a fresh private instance is always created and
registered — and both scans skip private entries (the pass-1 scan never
returns one, the pass-2 candidate predicate rejects them).  Concretely, a
private `*C` and a plain `*C` field end up with two distinct instances,
and a capability field findable only through the private entry fails
with the no-assignable-value error. -/
theorem c5_private_isolation :
    (∀ (env : Env) (st : GState) (oi base : Nat) (path : List Nat) (sid i : Nat)
        (fd : FieldDecl) (k : Nat) (fv : Val),
      fd.fty = .tPtr (.tStruct k) →
      parseTag fd.ftag = .ok (some injectPrivate) →
      fd.exported = true →
      heapRead st.heap base (path ++ [i]) = some fv →
      isNilOrZero fv fd.fty = true →
      popField env st oi base path sid i fd =
        pbind (provideOne
            { st with heap := st.heap ++ [zeroVal env env.depth (.tStruct k)],
                      maxLevel := if st.maxLevel < levelOf st oi + 1
                        then levelOf st oi + 1 else st.maxLevel }
            ⟨.tPtr (.tStruct k), .vPtr st.heap.length [], "", false, true,
              levelOf st oi + 1, true, false⟩)
          (fun st2 =>
            ({ st2 with
                heap := heapWrite st2.heap base (path ++ [i])
                          (.vPtr st.heap.length []) }, none))) ∧
    (∀ (env : Env) (objs : List Obj) (ft : Ty) (l : List Nat) (j : Nat) (e : Obj),
      findAssignable env objs ft l = some j → objs[j]? = some e → e.priv = false) ∧
    (∀ (env : Env) (objs : List Obj) (ft : Ty) (j : Nat) (e : Obj),
      scanPred env objs ft j = true → objs[j]? = some e → e.priv = false) ∧
    (populateG envPriv 10 stPriv).2 = none ∧
    (populateG envPriv 10 stPriv).1.heap =
      [.vStruct 30 [.vPtr 2 []], .vStruct 31 [.vPtr 3 []],
       .vStruct 32 [], .vStruct 32 []] ∧
    ((populateG envPriv 10 stPriv).1.objs[2]?).map (fun o => (o.priv, o.value)) =
      some (true, .vPtr 2 []) ∧
    (populateG envPriv 10 stPriv2).2 =
      some (.noAssignable "I" (.tPtr (.tStruct 33))) := by
  refine ⟨?_, ?_, ?_, by decide, by decide, by decide, by decide⟩
  · intro env st oi base path sid i fd k fv hfty hparse hexp hread hzero
    rw [hfty] at hzero
    simp [popField, hparse, hexp, hread, hzero, hfty, injectOnly, injectPrivate,
      (by decide : (STag.mk "" true == STag.mk "" true) = true)]
  · intro env objs ft l j e hfind hje
    rcases findAssignable_not_priv env objs ft l j hfind with ⟨e', hje', hpriv, -⟩
    rw [hje] at hje'
    injection hje' with he
    rw [← he] at hpriv
    exact hpriv
  · intro env objs ft j e hpred hje
    unfold scanPred at hpred
    rw [hje] at hpred
    dsimp only at hpred
    cases hpriv : e.priv with
    | true =>
        rw [hpriv] at hpred
        simp at hpred
    | false => rfl

/-- Witness for `c5_private_isolation`: the private create step on the
concrete scenario. -/
theorem c5_private_isolation_witness :
    popField envPriv stPriv 0 0 [] 30 0
        ⟨"P", .tPtr (.tStruct 32), "inject:\"private\"", true, false⟩ =
      pbind (provideOne
          { stPriv with heap := stPriv.heap ++ [.vStruct 32 []], maxLevel := 1 }
          ⟨.tPtr (.tStruct 32), .vPtr 2 [], "", false, true, 1, true, false⟩)
        (fun st2 => ({ st2 with heap := heapWrite st2.heap 0 [0] (.vPtr 2 []) }, none)) := by
  have h := c5_private_isolation.1 envPriv stPriv 0 0 [] 30 0
    ⟨"P", .tPtr (.tStruct 32), "inject:\"private\"", true, false⟩ 32 .vPtrNil
    (by rfl) (by rfl) (by rfl) (by rfl) (by rfl)
  rw [h]
  decide

/-- Environment for the named value-type scenario: struct 40 is
`E .. N int inject:"answer" ..`. -/
def envNamed : Env := {
  fields := fun sid =>
    if sid = 40 then [⟨"N", .tInt, "inject:\"answer\"", true, false⟩]
    else []
  impls := fun _ _ => false
  depth := 3 }

/-- Seed for the named value-type scenario: `*E` unnamed plus a plain
`int` value provided under the name `answer`. -/
def stNamed : GState :=
  { (provideList emptyG
      [mkObj (.tPtr (.tStruct 40)) (.vPtr 0 []) "" false,
       mkObj .tInt (.vInt 42) "answer" false]).1 with
    heap := [.vStruct 40 [.vInt 0]] }

/-- C10: a named object whose value is not a struct pointer is accepted
by `Provide` (the struct-pointer validation applies only to unnamed
objects), both population passes skip such an entry via the early
return, and it remains available as the target of named injection for
any assignable field.  The concrete scenario injects a named plain `int`
value. -/
theorem c10_named_value_types :
    (∀ (st : GState) (o : Obj), o.name ≠ "" → (st.named.lookup o.name).isSome = false →
      provideOne st o =
        ({ st with objs := st.objs ++ [o],
                   named := st.named ++ [(o.name, st.objs.length)] }, none)) ∧
    (∀ (env : Env) (st : GState) (oi : Nat) (o : Obj), st.objs[oi]? = some o →
      o.name ≠ "" → isStructPtr o.valueTy = false →
      populateExplicit env st oi = (st, none)) ∧
    (∀ (env : Env) (st : GState) (oi : Nat) (o : Obj), st.objs[oi]? = some o →
      o.name ≠ "" → isStructPtr o.valueTy = false →
      populateIface env st oi = (st, none)) ∧
    (∀ (env : Env) (st : GState) (oi base : Nat) (path : List Nat) (sid i : Nat)
        (fd : FieldDecl) (n : String) (fv : Val) (ei : Nat) (existing : Obj),
      parseTag fd.ftag = .ok (some ⟨n, false⟩) → n ≠ "" →
      fd.exported = true →
      heapRead st.heap base (path ++ [i]) = some fv →
      isNilOrZero fv fd.fty = true →
      st.named.lookup n = some ei →
      st.objs[ei]? = some existing →
      assignableTo env existing.valueTy fd.fty = true →
      popField env st oi base path sid i fd =
        (updateLevel
          { st with
              heap := heapWrite st.heap base (path ++ [i])
                        (setVal fd.fty existing.valueTy existing.value) } oi ei, none)) ∧
    (populateG envNamed 10 stNamed).2 = none ∧
    (populateG envNamed 10 stNamed).1.heap = [.vStruct 40 [.vInt 42]] := by
  refine ⟨?_, ?_, ?_, ?_, by decide, by decide⟩
  · intro st o hn hlook
    simp [provideOne, hn, hlook]
  · intro env st oi o hoi hn hsp
    simp [populateExplicit, hoi, hn, hsp]
  · intro env st oi o hoi hn hsp
    simp [populateIface, hoi, hn, hsp]
  · intro env st oi base path sid i fd n fv ei existing hparse hn hexp hread hzero
      hlook hei hass
    simp [popField, hparse, hexp, hread, hzero, hn, hlook, hei, hass]

/-- Witness for `c10_named_value_types`: the named `int` provide and the
named wiring step of the concrete scenario. -/
theorem c10_named_value_types_witness :
    provideOne emptyG (mkObj .tInt (.vInt 42) "answer" false) =
      ({ emptyG with objs := [mkObj .tInt (.vInt 42) "answer" false],
                     named := [("answer", 0)] }, none) ∧
    popField envNamed stNamed 0 0 [] 40 0
        ⟨"N", .tInt, "inject:\"answer\"", true, false⟩ =
      (updateLevel
        { stNamed with heap := heapWrite stNamed.heap 0 [0] (.vInt 42) } 0 1, none) := by
  constructor
  · have h := c10_named_value_types.1 emptyG (mkObj .tInt (.vInt 42) "answer" false)
      (by decide) (by rfl)
    rw [h]
    decide
  · have h := c10_named_value_types.2.2.2.1 envNamed stNamed 0 0 [] 40 0
      ⟨"N", .tInt, "inject:\"answer\"", true, false⟩ "answer" (.vInt 0) 1
      (mkObj .tInt (.vInt 42) "answer" false)
      (by rfl) (by decide) (by rfl) (by rfl) (by rfl) (by rfl) (by rfl) (by rfl)
    rw [h]
    decide

/-- Indexing into a one-element extension: either the prefix answers, or
the answer is the appended element. -/
theorem getElem?_append_singleton {l : List Obj} {x : Obj} {j : Nat} {y : Obj}
    (h : (l ++ [x])[j]? = some y) : (j < l.length ∧ l[j]? = some y) ∨ y = x := by
  rw [List.getElem?_append] at h
  split at h
  · exact Or.inl ⟨by assumption, h⟩
  · right
    have hz : j - l.length = 0 := by
      by_contra hnz
      have h1 : 1 ≤ j - l.length := Nat.one_le_iff_ne_zero.mpr hnz
      rw [List.getElem?_eq_none (by simpa using h1)] at h
      exact Option.noConfusion h
    rw [hz] at h
    simp only [List.getElem?_cons_zero, Option.some.injEq] at h
    exact h.symm

/-- Every level of an object reachable from the registry is bounded by
`maxLevel`. -/
def lvlBound (st : GState) : Prop :=
  (∀ j ∈ st.unnamed, levelOf st j ≤ st.maxLevel) ∧
  (∀ p ∈ st.named, levelOf st p.2 ≤ st.maxLevel)

/-- Step invariant of every resolution-time state transformation: the
object store only grows, every stored level is monotonically
non-decreasing, `maxLevel` is non-decreasing, and the level bound is
preserved. -/
structure PopStep (st st' : GState) : Prop where
  lenMono : st.objs.length ≤ st'.objs.length
  lvlMono : ∀ (j : Nat) (o o' : Obj), st.objs[j]? = some o → st'.objs[j]? = some o' →
    o.level ≤ o'.level
  maxMono : st.maxLevel ≤ st'.maxLevel
  bound : lvlBound st → lvlBound st'

theorem popStep_refl (st : GState) : PopStep st st := by
  refine ⟨Nat.le_refl _, ?_, Nat.le_refl _, id⟩
  intro j o o' h h'
  rw [h] at h'
  injection h' with he
  rw [he]

theorem popStep_trans {s1 s2 s3 : GState} (a : PopStep s1 s2) (b : PopStep s2 s3) :
    PopStep s1 s3 := by
  refine ⟨Nat.le_trans a.lenMono b.lenMono, ?_, Nat.le_trans a.maxMono b.maxMono,
    fun h => b.bound (a.bound h)⟩
  intro j o o' h h'
  rcases h2 : s2.objs[j]? with - | om
  · exfalso
    have hlt : j < s1.objs.length := by
      by_contra hge
      rw [List.getElem?_eq_none (Nat.le_of_not_lt hge)] at h
      exact Option.noConfusion h
    have hlen : j < s2.objs.length := Nat.lt_of_lt_of_le hlt a.lenMono
    rw [List.getElem?_eq_none_iff] at h2
    omega
  · exact Nat.le_trans (a.lvlMono j o om h h2) (b.lvlMono j om o' h2 h')

/-- A transformation that keeps the object store and both registries and
does not decrease `maxLevel` (heap writes, `maxLevel` bumps, the final
`levels` construction) is a `PopStep`. -/
theorem popStep_same_objs {st st' : GState} (hobjs : st'.objs = st.objs)
    (hu : st'.unnamed = st.unnamed) (hn : st'.named = st.named)
    (hm : st.maxLevel ≤ st'.maxLevel) : PopStep st st' := by
  refine ⟨by rw [hobjs], ?_, hm, ?_⟩
  · intro j o o' h h'
    rw [hobjs, h] at h'
    injection h' with he
    rw [he]
  · intro hb
    have hlev : ∀ j, levelOf st' j = levelOf st j := by
      intro j
      unfold levelOf
      rw [hobjs]
    constructor
    · intro j hj
      rw [hu] at hj
      rw [hlev j]
      exact Nat.le_trans (hb.1 j hj) hm
    · intro p hp
      rw [hn] at hp
      rw [hlev p.2]
      exact Nat.le_trans (hb.2 p hp) hm

theorem popStep_updateLevel (st : GState) (a b : Nat) : PopStep st (updateLevel st a b) := by
  unfold updateLevel
  rcases hb : st.objs[b]? with - | d
  · exact popStep_refl st
  · dsimp only
    split
    · exact popStep_refl st
    case isFalse hlt =>
      have hblen : b < st.objs.length := by
        by_contra hge
        rw [List.getElem?_eq_none (Nat.le_of_not_lt hge)] at hb
        exact Option.noConfusion hb
      have hget : ∀ j, (st.objs.set b { d with level := levelOf st a + 1 })[j]? =
          if b = j then some { d with level := levelOf st a + 1 } else st.objs[j]? := by
        intro j
        rw [List.getElem?_set]
        by_cases hbj : b = j
        · rw [if_pos hbj, if_pos hbj, if_pos (hbj ▸ hblen)]
        · rw [if_neg hbj, if_neg hbj]
      refine ⟨by simp, ?_, ?_, ?_⟩
      · intro j o o' h h'
        dsimp only at h'
        rw [hget j] at h'
        by_cases hbj : b = j
        · rw [if_pos hbj] at h'
          injection h' with he
          rw [← he]
          subst hbj
          rw [hb] at h
          injection h with hd
          have hdo : d.level = o.level := by rw [hd]
          dsimp only
          omega
        · rw [if_neg hbj] at h'
          rw [h] at h'
          injection h' with he
          rw [he]
      · dsimp only
        split
        · omega
        · exact Nat.le_refl _
      · intro hbnd
        have hlev : ∀ j, levelOf { st with
            objs := st.objs.set b { d with level := levelOf st a + 1 },
            maxLevel := if st.maxLevel < levelOf st a + 1 then levelOf st a + 1
              else st.maxLevel } j =
            if b = j then levelOf st a + 1 else levelOf st j := by
          intro j
          by_cases hbj : b = j
          · subst hbj
            rw [if_pos rfl]
            unfold levelOf
            try dsimp only
            rw [List.getElem?_set, if_pos rfl, if_pos hblen]
          · rw [if_neg hbj]
            unfold levelOf
            try dsimp only
            rw [List.getElem?_set, if_neg hbj]
        constructor
        · intro j hj
          try dsimp only at hj ⊢
          rw [hlev j]
          by_cases hbj : b = j
          · rw [if_pos hbj]
            try dsimp only
            split
            · omega
            · omega
          · rw [if_neg hbj]
            have := hbnd.1 j hj
            split
            · omega
            · omega
        · intro p hp
          try dsimp only at hp ⊢
          rw [hlev p.2]
          by_cases hbj : b = p.2
          · rw [if_pos hbj]
            try dsimp only
            split
            · omega
            · omega
          · rw [if_neg hbj]
            have := hbnd.2 p hp
            split
            · omega
            · omega

theorem popStep_provideOne {st st' : GState} {o : Obj} {e? : Option Err}
    (h : provideOne st o = (st', e?)) (hlev : o.level ≤ st.maxLevel) : PopStep st st' := by
  unfold provideOne at h
  split at h
  · split at h
    · injection h with h1 h2
      subst h1
      exact popStep_refl st
    · split at h
      · injection h with h1 h2
        subst h1
        exact popStep_refl st
      · injection h with h1 h2
        subst h1
        refine ⟨by simp, ?_, Nat.le_refl _, ?_⟩
        · intro j oo oo' hh hh'
          have hlt : j < st.objs.length := by
            by_contra hge
            rw [List.getElem?_eq_none (Nat.le_of_not_lt hge)] at hh
            exact Option.noConfusion hh
          dsimp only at hh'
          rw [List.getElem?_append, if_pos hlt, hh] at hh'
          injection hh' with he
          rw [he]
        · intro hbnd
          constructor
          · intro j hj
            dsimp only at hj ⊢
            unfold levelOf
            dsimp only
            rcases hget : (st.objs ++ [o])[j]? with - | oo
            · exact Nat.zero_le _
            · rcases getElem?_append_singleton hget with ⟨hjlt, ho'⟩ | hoo
              · rcases List.mem_append.mp hj with hj' | hj'
                · have := hbnd.1 j hj'
                  unfold levelOf at this
                  rw [ho'] at this
                  exact this
                · have hje : j = st.objs.length := by simpa using hj'
                  omega
              · rw [hoo]
                exact hlev
          · intro p hp
            dsimp only at hp ⊢
            unfold levelOf
            dsimp only
            rcases hget : (st.objs ++ [o])[p.2]? with - | oo
            · exact Nat.zero_le _
            · rcases getElem?_append_singleton hget with ⟨hjlt, ho'⟩ | hoo
              · have := hbnd.2 p hp
                unfold levelOf at this
                rw [ho'] at this
                exact this
              · rw [hoo]
                exact hlev
  · split at h
    · injection h with h1 h2
      subst h1
      exact popStep_refl st
    · injection h with h1 h2
      subst h1
      refine ⟨by simp, ?_, Nat.le_refl _, ?_⟩
      · intro j oo oo' hh hh'
        have hlt : j < st.objs.length := by
          by_contra hge
          rw [List.getElem?_eq_none (Nat.le_of_not_lt hge)] at hh
          exact Option.noConfusion hh
        dsimp only at hh'
        rw [List.getElem?_append, if_pos hlt, hh] at hh'
        injection hh' with he
        rw [he]
      · intro hbnd
        constructor
        · intro j hj
          dsimp only at hj ⊢
          unfold levelOf
          dsimp only
          rcases hget : (st.objs ++ [o])[j]? with - | oo
          · exact Nat.zero_le _
          · rcases getElem?_append_singleton hget with ⟨hjlt, ho'⟩ | hoo
            · have := hbnd.1 j hj
              unfold levelOf at this
              rw [ho'] at this
              exact this
            · rw [hoo]
              exact hlev
        · intro p hp
          dsimp only at hp ⊢
          unfold levelOf
          dsimp only
          rcases hget : (st.objs ++ [o])[p.2]? with - | oo
          · exact Nat.zero_le _
          · rcases getElem?_append_singleton hget with ⟨hjlt, ho'⟩ | hoo
            · rcases List.mem_append.mp hp with hp' | hp'
              · have := hbnd.2 p hp'
                unfold levelOf at this
                rw [ho'] at this
                exact this
              · have hpe : p = (o.name, st.objs.length) := by simpa using hp'
                rw [hpe] at hjlt
                simp at hjlt
            · rw [hoo]
              exact hlev

theorem le_bump (m n : Nat) : m ≤ if m < n then n else m := by
  split
  · omega
  · omega

theorem bump_ge (m n : Nat) : n ≤ if m < n then n else m := by
  split
  · omega
  · omega

theorem popField_step {env : Env} {st : GState} {oi base : Nat} {path : List Nat}
    {sid i : Nat} {fd : FieldDecl} {st' : GState} {e? : Option Err}
    (h : popField env st oi base path sid i fd = (st', e?)) : PopStep st st' := by
  have hRefl : ∀ (x : Option Err), (st, x) = (st', e?) → PopStep st st' := by
    intro x hx
    injection hx with h1 h2
    subst h1
    exact popStep_refl st
  unfold popField at h
  dsimp only at h
  split at h
  · exact hRefl _ h
  · exact hRefl _ h
  · split at h
    · exact hRefl _ h
    · split at h
      · exact hRefl _ h
      · split at h
        · exact hRefl _ h
        · split at h
          · split at h
            · exact hRefl _ h
            · split at h
              · exact hRefl _ h
              · split at h
                · exact hRefl _ h
                · injection h with h1 h2
                  subst h1
                  refine popStep_trans ?_ (popStep_updateLevel _ oi _)
                  exact popStep_same_objs rfl rfl rfl (Nat.le_refl _)
          · split at h
            · split at h
              · exact hRefl _ h
              · refine popStep_trans ?_ (popStep_provideOne h ?_)
                · exact popStep_same_objs rfl rfl rfl (le_bump _ _)
                · exact bump_ge _ _
            · exact hRefl _ h
            · split at h
              · exact hRefl _ h
              · injection h with h1 h2
                subst h1
                exact popStep_same_objs rfl rfl rfl (Nat.le_refl _)
            · split at h
              · split at h
                · exact hRefl _ h
                · injection h with h1 h2
                  subst h1
                  refine popStep_trans ?_ (popStep_updateLevel _ oi _)
                  exact popStep_same_objs rfl rfl rfl (Nat.le_refl _)
              · unfold pbind at h
                split at h
                · rename_i st2 e2 heq
                  injection h with h1 h2
                  subst h1
                  refine popStep_trans ?_ (popStep_provideOne heq ?_)
                  · exact popStep_same_objs rfl rfl rfl (le_bump _ _)
                  · exact bump_ge _ _
                · rename_i st2 heq
                  injection h with h1 h2
                  subst h1
                  refine popStep_trans (popStep_trans ?_ (popStep_provideOne heq ?_)) ?_
                  · exact popStep_same_objs rfl rfl rfl (le_bump _ _)
                  · exact bump_ge _ _
                  · exact popStep_same_objs rfl rfl rfl (Nat.le_refl _)
            · exact hRefl _ h

theorem popFields_step {env : Env} : ∀ (fds : List FieldDecl) (st : GState)
    (oi base : Nat) (path : List Nat) (sid i : Nat) (st' : GState) (e? : Option Err),
    popFields env st oi base path sid i fds = (st', e?) → PopStep st st'
  | [], st, oi, base, path, sid, i, st', e? => by
      intro h
      injection h with h1 h2
      subst h1
      exact popStep_refl st
  | fd :: rest, st, oi, base, path, sid, i, st', e? => by
      intro h
      unfold popFields at h
      unfold pbind at h
      split at h
      · rename_i st1 e1 heq
        injection h with h1 h2
        subst h1
        exact popField_step heq
      · rename_i st1 heq
        exact popStep_trans (popField_step heq)
          (popFields_step rest st1 oi base path sid (i+1) st' e? h)

theorem populateExplicit_step {env : Env} {st : GState} {oi : Nat} {st' : GState}
    {e? : Option Err} (h : populateExplicit env st oi = (st', e?)) : PopStep st st' := by
  have hRefl : ∀ (x : Option Err), (st, x) = (st', e?) → PopStep st st' := by
    intro x hx
    injection hx with h1 h2
    subst h1
    exact popStep_refl st
  unfold populateExplicit at h
  split at h
  · exact hRefl _ h
  · split at h
    · exact hRefl _ h
    · split at h
      · exact popFields_step _ _ _ _ _ _ _ _ _ h
      · exact hRefl _ h

theorem ifaceScan_step {env : Env} : ∀ (l : List Nat) (st : GState) (oi base : Nat)
    (path : List Nat) (i : Nat) (fty : Ty) (fname : String) (ownerTy : Ty)
    (found : Option Nat) (st' : GState) (e? : Option Err),
    ifaceScan env st oi base path i fty fname ownerTy found l = (st', e?) → PopStep st st'
  | [], st, oi, base, path, i, fty, fname, ownerTy, found, st', e? => by
      intro h
      unfold ifaceScan at h
      split at h
      · injection h with h1 h2
        subst h1
        exact popStep_refl st
      · injection h with h1 h2
        subst h1
        exact popStep_refl st
  | j :: rest, st, oi, base, path, i, fty, fname, ownerTy, found, st', e? => by
      intro h
      unfold ifaceScan at h
      dsimp only at h
      split at h
      · exact ifaceScan_step rest st oi base path i fty fname ownerTy found st' e? h
      · split at h
        · exact ifaceScan_step rest st oi base path i fty fname ownerTy found st' e? h
        · split at h
          · split at h
            · split at h
              · injection h with h1 h2
                subst h1
                exact popStep_refl st
              · injection h with h1 h2
                subst h1
                exact popStep_refl st
            · refine popStep_trans ?_ (ifaceScan_step rest _ oi base path i fty fname
                ownerTy (some j) st' e? h)
              refine popStep_trans ?_ (popStep_updateLevel _ oi j)
              exact popStep_same_objs rfl rfl rfl (Nat.le_refl _)
          · exact ifaceScan_step rest st oi base path i fty fname ownerTy found st' e? h

theorem popFieldIface_step {env : Env} {st : GState} {oi base : Nat} {path : List Nat}
    {sid i : Nat} {fd : FieldDecl} {st' : GState} {e? : Option Err}
    (h : popFieldIface env st oi base path sid i fd = (st', e?)) : PopStep st st' := by
  have hRefl : ∀ (x : Option Err), (st, x) = (st', e?) → PopStep st st' := by
    intro x hx
    injection hx with h1 h2
    subst h1
    exact popStep_refl st
  unfold popFieldIface at h
  dsimp only at h
  split at h
  · exact hRefl _ h
  · exact hRefl _ h
  · split at h
    · split at h
      · exact hRefl _ h
      · split at h
        · exact hRefl _ h
        · split at h
          · exact hRefl _ h
          · split at h
            · exact hRefl _ h
            · exact ifaceScan_step _ _ _ _ _ _ _ _ _ _ _ _ h
    · exact hRefl _ h

theorem popFieldsIface_step {env : Env} : ∀ (fds : List FieldDecl) (st : GState)
    (oi base : Nat) (path : List Nat) (sid i : Nat) (st' : GState) (e? : Option Err),
    popFieldsIface env st oi base path sid i fds = (st', e?) → PopStep st st'
  | [], st, oi, base, path, sid, i, st', e? => by
      intro h
      injection h with h1 h2
      subst h1
      exact popStep_refl st
  | fd :: rest, st, oi, base, path, sid, i, st', e? => by
      intro h
      unfold popFieldsIface at h
      unfold pbind at h
      split at h
      · rename_i st1 e1 heq
        injection h with h1 h2
        subst h1
        exact popFieldIface_step heq
      · rename_i st1 heq
        exact popStep_trans (popFieldIface_step heq)
          (popFieldsIface_step rest st1 oi base path sid (i+1) st' e? h)

theorem populateIface_step {env : Env} {st : GState} {oi : Nat} {st' : GState}
    {e? : Option Err} (h : populateIface env st oi = (st', e?)) : PopStep st st' := by
  have hRefl : ∀ (x : Option Err), (st, x) = (st', e?) → PopStep st st' := by
    intro x hx
    injection hx with h1 h2
    subst h1
    exact popStep_refl st
  unfold populateIface at h
  split at h
  · exact hRefl _ h
  · split at h
    · exact hRefl _ h
    · split at h
      · exact popFieldsIface_step _ _ _ _ _ _ _ _ _ h
      · exact hRefl _ h

theorem populateLoop_step {env : Env} : ∀ (fuel : Nat) (st : GState) (i : Nat)
    (st' : GState) (e? : Option Err),
    populateLoop env fuel st i = (st', e?) → PopStep st st'
  | 0, st, i, st', e? => by
      intro h
      injection h with h1 h2
      subst h1
      exact popStep_refl st
  | Nat.succ fuel, st, i, st', e? => by
      intro h
      unfold populateLoop at h
      split at h
      · injection h with h1 h2
        subst h1
        exact popStep_refl st
      · split at h
        · injection h with h1 h2
          subst h1
          exact popStep_refl st
        · split at h
          · injection h with h1 h2
            subst h1
            exact popStep_refl st
          · split at h
            · exact populateLoop_step fuel st (i+1) st' e? h
            · unfold pbind at h
              split at h
              · rename_i st1 e1 heq
                injection h with h1 h2
                subst h1
                exact populateExplicit_step heq
              · rename_i st1 heq
                exact popStep_trans (populateExplicit_step heq)
                  (populateLoop_step fuel st1 (i+1) st' e? h)

theorem populateExplicitNamed_step {env : Env} : ∀ (l : List (String × Nat)) (st : GState)
    (st' : GState) (e? : Option Err),
    populateExplicitNamed env st l = (st', e?) → PopStep st st'
  | [], st, st', e? => by
      intro h
      injection h with h1 h2
      subst h1
      exact popStep_refl st
  | p :: rest, st, st', e? => by
      intro h
      unfold populateExplicitNamed at h
      split at h
      · injection h with h1 h2
        subst h1
        exact popStep_refl st
      · split at h
        · exact populateExplicitNamed_step rest st st' e? h
        · unfold pbind at h
          split at h
          · rename_i st1 e1 heq
            injection h with h1 h2
            subst h1
            exact populateExplicit_step heq
          · rename_i st1 heq
            exact popStep_trans (populateExplicit_step heq)
              (populateExplicitNamed_step rest st1 st' e? h)

theorem populateIfaceList_step {env : Env} : ∀ (l : List Nat) (st : GState)
    (st' : GState) (e? : Option Err),
    populateIfaceList env st l = (st', e?) → PopStep st st'
  | [], st, st', e? => by
      intro h
      injection h with h1 h2
      subst h1
      exact popStep_refl st
  | oi :: rest, st, st', e? => by
      intro h
      unfold populateIfaceList at h
      split at h
      · injection h with h1 h2
        subst h1
        exact popStep_refl st
      · split at h
        · exact populateIfaceList_step rest st st' e? h
        · unfold pbind at h
          split at h
          · rename_i st1 e1 heq
            injection h with h1 h2
            subst h1
            exact populateIface_step heq
          · rename_i st1 heq
            exact popStep_trans (populateIface_step heq)
              (populateIfaceList_step rest st1 st' e? h)

theorem populateIfaceNamed_step {env : Env} : ∀ (l : List (String × Nat)) (st : GState)
    (st' : GState) (e? : Option Err),
    populateIfaceNamed env st l = (st', e?) → PopStep st st'
  | [], st, st', e? => by
      intro h
      injection h with h1 h2
      subst h1
      exact popStep_refl st
  | p :: rest, st, st', e? => by
      intro h
      unfold populateIfaceNamed at h
      split at h
      · injection h with h1 h2
        subst h1
        exact popStep_refl st
      · split at h
        · exact populateIfaceNamed_step rest st st' e? h
        · unfold pbind at h
          split at h
          · rename_i st1 e1 heq
            injection h with h1 h2
            subst h1
            exact populateIface_step heq
          · rename_i st1 heq
            exact popStep_trans (populateIface_step heq)
              (populateIfaceNamed_step rest st1 st' e? h)

theorem buildLevels_step (st : GState) : PopStep st (buildLevels st) :=
  popStep_same_objs rfl rfl rfl (Nat.le_refl _)

theorem populateG_step {env : Env} {fuel : Nat} {st st' : GState} {e? : Option Err}
    (h : populateG env fuel st = (st', e?)) : PopStep st st' := by
  unfold populateG at h
  unfold pbind at h
  split at h
  · rename_i st1 e1 heq
    injection h with h1 h2
    subst h1
    exact populateLoop_step fuel st 0 st1 (some e1) heq
  · rename_i st1 heq
    have s1 := populateLoop_step fuel st 0 st1 none heq
    try dsimp only at h
    split at h
    · rename_i st2 e2 heq2
      injection h with h1 h2
      subst h1
      exact popStep_trans s1 (populateExplicitNamed_step _ _ _ _ heq2)
    · rename_i st2 heq2
      have s2 := popStep_trans s1 (populateExplicitNamed_step _ _ _ _ heq2)
      try dsimp only at h
      split at h
      · rename_i st3 e3 heq3
        injection h with h1 h2
        subst h1
        exact popStep_trans s2 (populateIfaceList_step _ _ _ _ heq3)
      · rename_i st3 heq3
        have s3 := popStep_trans s2 (populateIfaceList_step _ _ _ _ heq3)
        try dsimp only at h
        split at h
        · rename_i st4 e4 heq4
          injection h with h1 h2
          subst h1
          exact popStep_trans s3 (populateIfaceNamed_step _ _ _ _ heq4)
        · rename_i st4 heq4
          injection h with h1 h2
          subst h1
          exact popStep_trans (popStep_trans s3 (populateIfaceNamed_step _ _ _ _ heq4))
            (buildLevels_step st4)

theorem bucketAdd_length (ls : List (List Nat)) (lvl oi : Nat) :
    (bucketAdd ls lvl oi).length = ls.length := by
  unfold bucketAdd
  split
  · simp
  · rfl

theorem bucketAdd_preserve {ls : List (List Nat)} {k : Nat} {b : List Nat} {x : Nat}
    (lvl oi : Nat) (h : ls[k]? = some b) (hx : x ∈ b) :
    ∃ b', (bucketAdd ls lvl oi)[k]? = some b' ∧ x ∈ b' := by
  unfold bucketAdd
  rcases hl : ls[lvl]? with - | bl
  · exact ⟨b, h, hx⟩
  · have hlen : lvl < ls.length := by
      by_contra hge
      rw [List.getElem?_eq_none (Nat.le_of_not_lt hge)] at hl
      exact Option.noConfusion hl
    dsimp only
    rw [List.getElem?_set]
    by_cases hkl : lvl = k
    · subst hkl
      rw [if_pos rfl, if_pos hlen]
      rw [hl] at h
      injection h with hb
      exact ⟨bl ++ [oi], rfl, by rw [hb]; exact List.mem_append_left _ hx⟩
    · rw [if_neg hkl]
      exact ⟨b, h, hx⟩

theorem bucketAdd_adds {ls : List (List Nat)} {lvl : Nat} (oi : Nat)
    (hlen : lvl < ls.length) :
    ∃ b', (bucketAdd ls lvl oi)[lvl]? = some b' ∧ oi ∈ b' := by
  unfold bucketAdd
  rcases hl : ls[lvl]? with - | bl
  · rw [List.getElem?_eq_none_iff] at hl
    omega
  · dsimp only
    rw [List.getElem?_set, if_pos rfl, if_pos hlen]
    exact ⟨bl ++ [oi], rfl, by simp⟩

theorem foldl_bucket_length (f : Nat → Nat) : ∀ (ois : List Nat) (ls : List (List Nat)),
    (ois.foldl (fun acc oi => bucketAdd acc (f oi) oi) ls).length = ls.length
  | [], ls => rfl
  | oi :: rest, ls => by
      simp only [List.foldl_cons]
      rw [foldl_bucket_length f rest _, bucketAdd_length]

theorem foldl_bucket_preserve (f : Nat → Nat) : ∀ (ois : List Nat) (ls : List (List Nat))
    (k : Nat) (b : List Nat) (x : Nat), ls[k]? = some b → x ∈ b →
    ∃ b', (ois.foldl (fun acc oi => bucketAdd acc (f oi) oi) ls)[k]? = some b' ∧ x ∈ b'
  | [], ls, k, b, x, h, hx => ⟨b, h, hx⟩
  | oi :: rest, ls, k, b, x, h, hx => by
      simp only [List.foldl_cons]
      rcases bucketAdd_preserve (f oi) oi h hx with ⟨b1, hb1, hx1⟩
      exact foldl_bucket_preserve f rest _ k b1 x hb1 hx1

theorem foldl_bucket_adds (f : Nat → Nat) : ∀ (ois : List Nat) (ls : List (List Nat))
    (j : Nat), j ∈ ois → f j < ls.length →
    ∃ b, (ois.foldl (fun acc oi => bucketAdd acc (f oi) oi) ls)[f j]? = some b ∧ j ∈ b
  | [], ls, j, hj, _ => absurd hj (List.not_mem_nil j)
  | oi :: rest, ls, j, hj, hlt => by
      simp only [List.foldl_cons]
      rcases List.mem_cons.mp hj with hj' | hj'
      · subst hj'
        rcases bucketAdd_adds j hlt with ⟨b1, hb1, hx1⟩
        exact foldl_bucket_preserve f rest _ (f j) b1 j hb1 hx1
      · exact foldl_bucket_adds f rest _ j hj' (by rw [bucketAdd_length]; exact hlt)

/-- Bucket construction: given the level bound, `buildLevels` produces
`maxLevel + 1` buckets and puts every unnamed and named object index
into the bucket of its level. -/
theorem buildLevels_grouping (st : GState) (hb : lvlBound st) :
    (buildLevels st).levels.length = st.maxLevel + 1 ∧
    (∀ j ∈ st.unnamed, ∃ b, (buildLevels st).levels[levelOf st j]? = some b ∧ j ∈ b) ∧
    (∀ p ∈ st.named, ∃ b, (buildLevels st).levels[levelOf st p.2]? = some b ∧ p.2 ∈ b) := by
  unfold buildLevels
  dsimp only
  refine ⟨?_, ?_, ?_⟩
  · rw [foldl_bucket_length, foldl_bucket_length]
    simp
  · intro j hj
    have hlt : levelOf st j < (List.replicate (st.maxLevel + 1) ([] : List Nat)).length := by
      have := hb.1 j hj
      simp only [List.length_replicate]
      omega
    rcases foldl_bucket_adds (levelOf st) st.unnamed _ j hj hlt with ⟨b, hbk, hjb⟩
    exact foldl_bucket_preserve (levelOf st) (st.named.map (fun p => p.2)) _ _ b j hbk hjb
  · intro p hp
    have hmem : p.2 ∈ st.named.map (fun q => q.2) := List.mem_map_of_mem _ hp
    refine foldl_bucket_adds (levelOf st) _ _ p.2 hmem ?_
    rw [foldl_bucket_length]
    have := hb.2 p hp
    simp only [List.length_replicate]
    omega

/-- Shape of a successful `Populate`: the final state is `buildLevels`
of a state reached from the start by resolution steps. -/
theorem populateG_success_shape {env : Env} {fuel : Nat} {st st' : GState}
    (h : populateG env fuel st = (st', none)) :
    ∃ st4, PopStep st st4 ∧ st' = buildLevels st4 := by
  unfold populateG at h
  unfold pbind at h
  split at h
  · injection h with h1 h2
    exact Option.noConfusion h2
  · rename_i st1 heq
    have s1 := populateLoop_step fuel st 0 st1 none heq
    try dsimp only at h
    split at h
    · injection h with h1 h2
      exact Option.noConfusion h2
    · rename_i st2 heq2
      have s2 := popStep_trans s1 (populateExplicitNamed_step _ _ _ _ heq2)
      try dsimp only at h
      split at h
      · injection h with h1 h2
        exact Option.noConfusion h2
      · rename_i st3 heq3
        have s3 := popStep_trans s2 (populateIfaceList_step _ _ _ _ heq3)
        try dsimp only at h
        split at h
        · injection h with h1 h2
          exact Option.noConfusion h2
        · rename_i st4 heq4
          injection h with h1 h2
          exact ⟨st4, popStep_trans s3 (populateIfaceNamed_step _ _ _ _ heq4), h1.symm⟩

/-- C8: `updateLevel` raises the dependency's level to the consumer's
level plus one exactly when it is smaller, tracking the running maximum,
and leaves the state unchanged otherwise; across a whole `Populate` run
every stored object's level is monotonically non-decreasing (and the
store only grows); and on success `Levels` has buckets `0..maxLevel`
with every registered entry in the bucket of its final level. -/
theorem c8_update_level_and_buckets :
    (∀ (st : GState) (ui di : Nat) (u d : Obj),
      st.objs[ui]? = some u → st.objs[di]? = some d →
      (d.level < u.level + 1 →
        updateLevel st ui di =
          { st with objs := st.objs.set di { d with level := u.level + 1 },
                    maxLevel := if st.maxLevel < u.level + 1 then u.level + 1
                      else st.maxLevel }) ∧
      (u.level + 1 ≤ d.level → updateLevel st ui di = st)) ∧
    (∀ (env : Env) (fuel : Nat) (st st' : GState) (e? : Option Err),
      populateG env fuel st = (st', e?) →
      st.objs.length ≤ st'.objs.length ∧
      ∀ (j : Nat) (o o' : Obj), st.objs[j]? = some o → st'.objs[j]? = some o' →
        o.level ≤ o'.level) ∧
    (∀ (env : Env) (fuel : Nat) (st st' : GState),
      lvlBound st → populateG env fuel st = (st', none) →
      st'.levels.length = st'.maxLevel + 1 ∧
      (∀ j ∈ st'.unnamed, ∃ b, st'.levels[levelOf st' j]? = some b ∧ j ∈ b) ∧
      (∀ p ∈ st'.named, ∃ b, st'.levels[levelOf st' p.2]? = some b ∧ p.2 ∈ b)) := by
  refine ⟨?_, ?_, ?_⟩
  · intro st ui di u d hui hdi
    have hl : levelOf st ui = u.level := by
      unfold levelOf
      rw [hui]
    constructor
    · intro hlt
      unfold updateLevel
      rw [hdi]
      dsimp only
      rw [hl]
      rw [if_neg (by omega)]
    · intro hge
      unfold updateLevel
      rw [hdi]
      dsimp only
      rw [hl]
      rw [if_pos hge]
  · intro env fuel st st' e? h
    have hs := populateG_step h
    exact ⟨hs.lenMono, hs.lvlMono⟩
  · intro env fuel st st' hb h
    rcases populateG_success_shape h with ⟨st4, hstep, hst'⟩
    have hb4 : lvlBound st4 := hstep.bound hb
    have hg := buildLevels_grouping st4 hb4
    subst hst'
    have hlev : ∀ j, levelOf (buildLevels st4) j = levelOf st4 j := by
      intro j
      unfold levelOf buildLevels
      rfl
    refine ⟨hg.1, ?_, ?_⟩
    · intro j hj
      rw [hlev j]
      exact hg.2.1 j hj
    · intro p hp
      rw [hlev p.2]
      exact hg.2.2 p hp

instance (st : GState) : Decidable (lvlBound st) := by
  unfold lvlBound
  infer_instance

/-- Witness for `c8_update_level_and_buckets` on the singleton-sharing
scenario: three buckets and the exact bucket layout after `Populate`. -/
theorem c8_update_level_and_buckets_witness :
    (populateG envShare 10 stShare).1.levels.length =
      (populateG envShare 10 stShare).1.maxLevel + 1 ∧
    (∃ b, (populateG envShare 10 stShare).1.levels[
        levelOf (populateG envShare 10 stShare).1 2]? = some b ∧ 2 ∈ b) := by
  have h := c8_update_level_and_buckets.2.2 envShare 10 stShare
    (populateG envShare 10 stShare).1 (by decide)
    (by decide : populateG envShare 10 stShare = ((populateG envShare 10 stShare).1, none))
  exact ⟨h.1, h.2.1 2 (by decide)⟩

/-- C7: in the inline-capable variant's pass 1, a still-empty nested
record field that is an ordinary (non-anonymous) field and carries the
plain tag `inject:""` is rejected with the inline-tag-required error,
while an anonymous embedded record field with the same plain tag
defaults to inline traversal (a synthetic embedded entry, no error). -/
theorem c7_inline_tag_required :
    (∀ (env : Env) (st : GState) (oi base : Nat) (path : List Nat) (sid i : Nat)
        (fd : FieldDecl) (sid2 : Nat) (fv : Val),
      fd.fty = .tStruct sid2 →
      gParseTag fd.ftag = .ok (some gInjectOnly) →
      fd.anonymous = false →
      fd.exported = true →
      heapRead st.heap base (path ++ [i]) = some fv →
      isNilOrZero fv fd.fty = true →
      gPopField env st oi base path sid i fd =
        (st, some (.inlineTagRequired fd.fname (.tPtr (.tStruct sid))))) ∧
    (∀ (env : Env) (st : GState) (oi base : Nat) (path : List Nat) (sid i : Nat)
        (fd : FieldDecl) (sid2 : Nat) (fv : Val),
      fd.fty = .tStruct sid2 →
      gParseTag fd.ftag = .ok (some gInjectOnly) →
      fd.anonymous = true →
      fd.exported = true →
      heapRead st.heap base (path ++ [i]) = some fv →
      isNilOrZero fv fd.fty = true →
      gPopField env st oi base path sid i fd =
        provideOne
          { st with maxLevel :=
              if st.maxLevel < levelOf st oi + 1 then levelOf st oi + 1 else st.maxLevel }
          ⟨.tPtr (.tStruct sid2), .vPtr base (path ++ [i]), "", false, true,
            levelOf st oi + 1, false, true⟩) := by
  constructor
  · intro env st oi base path sid i fd sid2 fv hfty hparse hanon hexp hread hzero
    rw [hfty] at hzero
    simp [gPopField, hparse, hexp, hread, hzero, hfty, hanon, gInjectOnly]
  · intro env st oi base path sid i fd sid2 fv hfty hparse hanon hexp hread hzero
    rw [hfty] at hzero
    simp [gPopField, hparse, hexp, hread, hzero, hfty, hanon, gInjectOnly]

/-- Witness for `c7_inline_tag_required`: the ordinary nested record
field of struct 13 is rejected, the anonymous one of struct 14 is
traversed. -/
theorem c7_inline_tag_required_witness :
    gPopField envInline stInline 0 0 [] 13 0
        ⟨"Inline", .tStruct 11, "inject:\"\"", true, false⟩ =
      (stInline, some (.inlineTagRequired "Inline" (.tPtr (.tStruct 13)))) ∧
    gPopField envInline stInline 0 0 [] 14 0
        ⟨"T", .tStruct 11, "inject:\"\"", true, true⟩ =
      provideOne { stInline with maxLevel := 1 }
        ⟨.tPtr (.tStruct 11), .vPtr 0 [0], "", false, true, 1, false, true⟩ := by
  constructor
  · exact c7_inline_tag_required.1 envInline stInline 0 0 [] 13 0
      ⟨"Inline", .tStruct 11, "inject:\"\"", true, false⟩ 11 (.vStruct 11 [.vPtrNil])
      (by rfl) (by rfl) (by rfl) (by rfl) (by rfl) (by rfl)
  · have h := c7_inline_tag_required.2 envInline stInline 0 0 [] 14 0
      ⟨"T", .tStruct 11, "inject:\"\"", true, true⟩ 11 (.vStruct 11 [.vPtrNil])
      (by rfl) (by rfl) (by rfl) (by rfl) (by rfl) (by rfl)
    simpa using h

/-! ### C3: tag-grammar refinement -/

theorem take_append_len {α : Type} (l₁ l₂ : List α) (k : Nat) :
    (l₁ ++ l₂).take (l₁.length + k) = l₁ ++ l₂.take k := by
  induction l₁ with
  | nil => simp
  | cons a l ih =>
    have h : (a :: l).length + k = (l.length + k) + 1 := by
      simp only [List.length_cons]; omega
    rw [List.cons_append, h, List.take_succ_cons, ih, List.cons_append]

theorem drop_append_len {α : Type} (l₁ l₂ : List α) (k : Nat) :
    (l₁ ++ l₂).drop (l₁.length + k) = l₂.drop k := by
  induction l₁ with
  | nil => simp
  | cons a l ih =>
    have h : (a :: l).length + k = (l.length + k) + 1 := by
      simp only [List.length_cons]; omega
    rw [List.cons_append, h, List.drop_succ_cons, ih]

theorem dropWhile_length_le (p : Char → Bool) (l : List Char) :
    (l.dropWhile p).length ≤ l.length := by
  induction l with
  | nil => simp
  | cons a l ih =>
    rw [List.dropWhile_cons]
    split
    · exact Nat.le_trans ih (Nat.le_succ _)
    · exact Nat.le_refl _

/-- A successful `specBody` split characterises `findClose`
(part_000:242): the input is the body, the closing quote, and the
remainder, and `findClose` reports exactly the body's length. -/
theorem specBody_spec : ∀ (n : Nat) (cs b r : List Char), cs.length ≤ n →
    specBody cs = some (b, r) →
    cs = b ++ '"' :: r ∧ findClose cs = some b.length := by
  intro n
  induction n with
  | zero =>
    intro cs b r hlen hs
    have hnil : cs = [] := by
      cases cs with
      | nil => rfl
      | cons a l => simp at hlen
    subst hnil
    simp [specBody] at hs
  | succ n ih =>
    intro cs b r hlen hs
    cases cs with
    | nil => simp [specBody] at hs
    | cons c rest =>
      unfold specBody at hs
      by_cases hc : c = '"'
      · rw [if_pos hc] at hs
        injection hs with h2
        injection h2 with h3 h4
        subst h3; subst h4; subst hc
        exact ⟨rfl, rfl⟩
      · rw [if_neg hc] at hs
        by_cases hbs : c = '\\'
        · rw [if_pos hbs] at hs
          cases rest with
          | nil => simp at hs
          | cons c2 rest2 =>
            rw [Option.map_eq_some'] at hs
            obtain ⟨⟨b', r'⟩, hsb, hpr⟩ := hs
            injection hpr with hb hr
            have hlen2 : rest2.length ≤ n := by
              simp only [List.length_cons] at hlen; omega
            obtain ⟨hcs, hfc⟩ := ih rest2 b' r' hlen2 hsb
            subst hb; subst hr; subst hbs
            refine ⟨by rw [hcs]; rfl, ?_⟩
            have hred : findClose ('\\' :: c2 :: rest2) =
                (findClose rest2).map (fun n => n + 2) := rfl
            rw [hred, hfc]
            rfl
        · rw [if_neg hbs] at hs
          rw [Option.map_eq_some'] at hs
          obtain ⟨⟨b', r'⟩, hsb, hpr⟩ := hs
          injection hpr with hb hr
          have hlen2 : rest.length ≤ n := by
            simp only [List.length_cons] at hlen; omega
          obtain ⟨hcs, hfc⟩ := ih rest b' r' hlen2 hsb
          subst hb; subst hr
          refine ⟨by rw [hcs]; rfl, ?_⟩
          rw [findClose.eq_def]
          split
          · rename_i heq
            exact absurd heq (by simp)
          · rename_i heq
            injection heq with h5 h6
            exact absurd h5 hc
          · rename_i heq
            injection heq with h5 h6
            exact absurd h5 hbs
          · rename_i c2 r2 heq
            injection heq with h5 h6
            exact absurd h5 hbs
          · rename_i c2 r2 heq
            injection heq with h5 h6
            subst h6
            rw [hfc]
            rfl

theorem lookupPairs_nil : lookupPairs [] = none := rfl

theorem lookupPairs_cons (k : String) (v : List Char)
    (l : List (String × List Char)) :
    lookupPairs ((k, v) :: l) = if k = "inject" then some v else lookupPairs l :=
  rfl

theorem specExtractResult_some {prs : List (String × List Char)} {v : List Char}
    (h : lookupPairs prs = some v) : specExtractResult prs = (true, v) := by
  unfold specExtractResult
  rw [h]

theorem specExtractResult_none {prs : List (String × List Char)}
    (h : lookupPairs prs = none) : specExtractResult prs = (false, []) := by
  unfold specExtractResult
  rw [h]

/-- Every annotation the spec grammar accepts is scanned successfully by
`extractTag` (part_000:217), and the extraction result is the value of
the first `inject` key the grammar found. -/
theorem extract_agrees : ∀ (fuelS : Nat) (cs : List Char)
    (prs : List (String × List Char)) (fuelE : Nat),
    cs.length < fuelE →
    specParseAux fuelS cs = some prs →
    extractTagAux fuelE cs = .ok (specExtractResult prs) := by
  intro fuelS
  induction fuelS with
  | zero =>
    intro cs prs fuelE _ hs
    simp [specParseAux] at hs
  | succ fuelS ih =>
    intro cs prs fuelE hlt hs
    obtain ⟨fuelE', rfl⟩ : ∃ k, fuelE = k + 1 := ⟨fuelE - 1, by omega⟩
    unfold specParseAux at hs
    unfold extractTagAux
    dsimp only at hs ⊢
    by_cases h1 : (cs.dropWhile (fun c => c == ' ')).isEmpty = true
    · rw [if_pos h1] at hs ⊢
      injection hs with h2
      subst h2
      rfl
    · rw [if_neg h1] at hs ⊢
      by_cases hke : ((cs.dropWhile (fun c => c == ' ')).takeWhile
          (fun c => c != ' ' && c != ':' && c != '"')).isEmpty = true
      · rw [if_pos hke] at hs
        exact absurd hs (by simp)
      · rw [if_neg hke] at hs
        set t1 := cs.dropWhile (fun c => c == ' ') with ht1def
        set key := t1.takeWhile (fun c => c != ' ' && c != ':' && c != '"')
          with hkeydef
        split at hs
        case _ rest heq =>
          split at hs
          case _ heqB => exact absurd hs (by simp)
          case _ body after heqB =>
            split at hs
            case _ hequ => exact absurd hs (by simp)
            case _ v hequ =>
              have hTW : key ++ t1.dropWhile
                  (fun c => c != ' ' && c != ':' && c != '"') = t1 := by
                rw [hkeydef]
                exact List.takeWhile_append_dropWhile _ _
              have hdw : t1.drop key.length = t1.dropWhile
                  (fun c => c != ' ' && c != ':' && c != '"') := by
                conv_lhs => rw [← hTW]
                exact List.drop_left _ _
              have hsplit : t1 = key ++ ':' :: '"' :: rest := by
                conv_lhs => rw [← hTW]
                rw [← hdw, heq]
              have hcolon : t1[key.length]? = some ':' := by
                rw [hsplit, List.getElem?_append_right (Nat.le_refl _)]
                simp
              have hquote : t1[key.length + 1]? = some '"' := by
                rw [hsplit, List.getElem?_append_right (Nat.le_succ_of_le (Nat.le_refl _))]
                have h2 : key.length + 1 - key.length = 1 := by omega
                rw [h2]
                simp
              rw [if_neg (by push_neg; exact ⟨hcolon, hquote⟩)]
              obtain ⟨hcsB, hfcB⟩ :=
                specBody_spec rest.length rest body after (Nat.le_refl _) heqB
              have ht2 : t1.drop (key.length + 1) = '"' :: rest := by
                rw [hsplit]
                have hdd := List.drop_drop 1 key.length (key ++ ':' :: '"' :: rest)
                rw [← hdd, List.drop_left]
                simp
              have hfc2 : findClose ((t1.drop (key.length + 1)).drop 1) =
                  some body.length := by
                rw [ht2]
                show findClose rest = some body.length
                exact hfcB
              rw [hfc2]
              dsimp only
              have hname : t1.take key.length = key := by
                rw [hsplit, List.take_left]
              rw [hname]
              have hrt : (t1.drop (key.length + 1)).drop (body.length + 2) = after := by
                rw [ht2]
                show rest.drop (body.length + 1) = after
                rw [hcsB, drop_append_len body ('"' :: after) 1]
                simp
              have hl1 : t1.length ≤ cs.length := by
                rw [ht1def]
                exact dropWhile_length_le _ _
              have hl2 : t1.length = key.length + rest.length + 2 := by
                rw [hsplit]
                simp only [List.length_append, List.length_cons]
                omega
              have hl3 : rest.length = body.length + after.length + 1 := by
                rw [hcsB]
                simp only [List.length_append, List.length_cons]
                omega
              by_cases hinj : key = "inject".toList
              · rw [if_pos hinj]
                have hq : (t1.drop (key.length + 1)).take (body.length + 2) =
                    '"' :: (body ++ ['"']) := by
                  rw [ht2]
                  show '"' :: rest.take (body.length + 1) = '"' :: (body ++ ['"'])
                  rw [hcsB, take_append_len body ('"' :: after) 1]
                  simp
                have hmk : String.mk key = "inject" := by rw [hinj]; rfl
                rw [hq]
                have hunq : unquote ('"' :: (body ++ ['"'])) = some v := by
                  show (if (body ++ ['"']).getLast? = some '"' then
                          if (body ++ ['"']).length = 0 then none
                          else unquoteBody (body ++ ['"']).dropLast
                        else none) = some v
                  rw [if_pos (by rw [List.getLast?_concat]), if_neg (by simp),
                    List.dropLast_concat]
                  exact hequ
                rw [hunq]
                by_cases hae : after.isEmpty = true
                · rw [if_pos hae] at hs
                  injection hs with h2
                  subst h2
                  have hlp : lookupPairs [(String.mk key, v)] = some v := by
                    rw [lookupPairs_cons, if_pos hmk]
                  show Except.ok (true, v) =
                    .ok (specExtractResult [(String.mk key, v)])
                  rw [specExtractResult_some hlp]
                · rw [if_neg hae] at hs
                  by_cases hsp2 : after.head? = some ' '
                  · rw [if_pos hsp2] at hs
                    rw [Option.map_eq_some'] at hs
                    obtain ⟨prs', hrec, hcons⟩ := hs
                    subst hcons
                    have hlp : lookupPairs ((String.mk key, v) :: prs') = some v := by
                      rw [lookupPairs_cons, if_pos hmk]
                    show Except.ok (true, v) =
                      .ok (specExtractResult ((String.mk key, v) :: prs'))
                    rw [specExtractResult_some hlp]
                  · rw [if_neg hsp2] at hs
                    exact absurd hs (by simp)
              · rw [if_neg hinj]
                rw [hrt]
                have hmkne : ¬ (String.mk key = "inject") := by
                  intro hcontra
                  apply hinj
                  exact congrArg String.toList hcontra
                by_cases hae : after.isEmpty = true
                · rw [if_pos hae] at hs
                  injection hs with h2
                  subst h2
                  have haeq : after = [] := List.isEmpty_iff.mp hae
                  subst haeq
                  obtain ⟨k2, rfl⟩ : ∃ k, fuelE' = k + 1 := ⟨fuelE' - 1, by omega⟩
                  have hlp : lookupPairs [(String.mk key, v)] = none := by
                    rw [lookupPairs_cons, if_neg hmkne, lookupPairs_nil]
                  rw [specExtractResult_none hlp]
                  rfl
                · rw [if_neg hae] at hs
                  by_cases hsp2 : after.head? = some ' '
                  · rw [if_pos hsp2] at hs
                    rw [Option.map_eq_some'] at hs
                    obtain ⟨prs', hrec, hcons⟩ := hs
                    subst hcons
                    have hlt2 : after.length < fuelE' := by omega
                    rw [ih after prs' fuelE' hlt2 hrec]
                    have hskip : lookupPairs ((String.mk key, v) :: prs') =
                        lookupPairs prs' := by
                      rw [lookupPairs_cons, if_neg hmkne]
                    show Except.ok (specExtractResult prs') =
                      .ok (specExtractResult ((String.mk key, v) :: prs'))
                    unfold specExtractResult
                    rw [hskip]
                  · rw [if_neg hsp2] at hs
                    exact absurd hs (by simp)
        case _ hne =>
          exact absurd hs (by simp)

/-- C3 (corrected): `parseTag` classifies the extracted inject value as
specified — absent when no `inject` key is found, plain for the empty
value, private for exactly `private`, named otherwise — and every
annotation accepted by the spec's whole-string `key:"value"` grammar is
parsed successfully with that classification.  The failure modes are a
missing colon-quote after a key, an unterminated quoted value and a bad
escape in the inject value, and `popField` echoes the exact offending
raw tag string in the malformed-tag error.  However, `parseTag` fails
exactly when the left-to-right segment scan fails at or before the
`inject` key: the remainder of the annotation after a successful
`inject` extraction is never examined (second conjunct; see
`c3_counterexample`), so "fails exactly when the grammar does not
parse" does not hold for the whole annotation. -/
theorem c3_parse_classification :
    (∀ (t : String) (prs : List (String × List Char)),
        specParse t.toList = some prs →
        parseTag t = .ok (classifyTag (lookupPairs prs))) ∧
    (∀ rest : List Char,
        extractTag ("inject".toList ++ ':' :: '"' :: '"' :: rest) =
          .ok (true, [])) ∧
    parseTag "inject:\"\"" = .ok (some injectOnly) ∧
    parseTag "inject:\"private\"" = .ok (some injectPrivate) ∧
    parseTag "inject:\"dev logger\"" = .ok (some ⟨"dev logger", false⟩) ∧
    parseTag "foo:\"bar\"" = .ok none ∧
    parseTag "inject" = .error .invalidTag ∧
    parseTag "inject:\"x" = .error .invalidTag ∧
    parseTag "inject:\"\\q\"" = .error .unquoteErr ∧
    (∀ (env : Env) (st : GState) (oi base : Nat) (path : List Nat)
        (sid i : Nat) (fd : FieldDecl) (e : TagErr),
        parseTag fd.ftag = .error e →
        popField env st oi base path sid i fd =
          (st, some (.malformedTag fd.ftag fd.fname (Ty.tPtr (Ty.tStruct sid))))) := by
  refine ⟨?_, ?_, by rfl, by rfl, by rfl, by rfl, by rfl, by rfl, by rfl, ?_⟩
  · intro t prs hsp
    unfold specParse at hsp
    have h := extract_agrees (t.toList.length + 1) t.toList prs
      (t.toList.length + 1) (Nat.lt_succ_self _) hsp
    unfold parseTag extractTag
    rw [h]
    cases hl : lookupPairs prs with
    | none =>
      rw [specExtractResult_none hl]
      rfl
    | some v =>
      rw [specExtractResult_some hl]
      show (if v = [] then Except.ok (some injectOnly)
            else if v = "private".toList then Except.ok (some injectPrivate)
            else Except.ok (some ⟨String.mk v, false⟩)) =
        .ok (classifyTag (some v))
      show _ = Except.ok (if v = [] then some injectOnly
            else if v = "private".toList then some injectPrivate
            else some ⟨String.mk v, false⟩)
      split_ifs <;> rfl
  · intro rest
    rfl
  · intro env st oi base path sid i fd e hparse
    unfold popField
    rw [hparse]

/-- A closed counterexample to the claim's "fails exactly when the
`key:"value"` grammar does not parse": the annotation `inject:"" ,` is
rejected by the whole-string grammar (the trailing `,` segment has no
colon), yet `parseTag` succeeds with the plain tag because the scan
stops at the successful `inject` extraction. -/
theorem c3_counterexample :
    parseTag "inject:\"\" ," = .ok (some injectOnly) ∧
    specParse "inject:\"\" ,".toList = none := by
  exact ⟨by rfl, by rfl⟩

/-- Concrete instance of `c3_parse_classification`: a grammar-accepted
two-segment annotation classified as the named tag `a`, the
tail-ignoring family at a concrete tail, and `popField` echoing a
malformed raw tag. -/
theorem c3_parse_classification_witness :
    parseTag "inject:\"a\" other:\"b\"" = .ok (some ⟨"a", false⟩) ∧
    extractTag ("inject".toList ++ ':' :: '"' :: '"' :: [' ', ',']) =
      .ok (true, []) ∧
    popField ⟨fun _ => [], fun _ _ => false, 0⟩ emptyG 0 0 [] 7 0
        ⟨"F", .tInt, "inject:\"x", true, false⟩ =
      (emptyG, some (.malformedTag "inject:\"x" "F" (Ty.tPtr (Ty.tStruct 7)))) := by
  refine ⟨?_, c3_parse_classification.2.1 [' ', ','], ?_⟩
  · have h := c3_parse_classification.1 "inject:\"a\" other:\"b\""
      [("inject", ['a']), ("other", ['b'])] (by rfl)
    rw [h]
    rfl
  · exact c3_parse_classification.2.2.2.2.2.2.2.2.2
      ⟨fun _ => [], fun _ _ => false, 0⟩ emptyG 0 0 [] 7 0
      ⟨"F", .tInt, "inject:\"x", true, false⟩ .invalidTag (by rfl)

/-! ### C9: idempotent completeness -/

/-- A field is stable when re-processing it writes nothing: its tag
parses, and if a tag is present the field is exported, not a
private-tagged capability field, and its current value is non-zero
(so both passes skip it at inject.go:244 and inject.go:437). -/
def fieldStable (heap : Heap) (base : Nat) (path : List Nat)
    (i : Nat) (fd : FieldDecl) : Bool :=
  match parseTag fd.ftag with
  | .error _ => false
  | .ok none => true
  | .ok (some tg) =>
      fd.exported &&
      (match fd.fty with
       | .tIface _ => tg != injectPrivate
       | _ => true) &&
      (match heapRead heap base (path ++ [i]) with
       | none => false
       | some fv => !(isNilOrZero fv fd.fty))

/-- All remaining fields of a struct are stable. -/
def fieldsStable (heap : Heap) (base : Nat) (path : List Nat) :
    Nat → List FieldDecl → Bool
  | _, [] => true
  | i, fd :: rest =>
      fieldStable heap base path i fd && fieldsStable heap base path (i+1) rest

/-- An object is stable when both passes leave the state untouched on
it: it is complete, or a named value type (skipped), or a struct
pointer into the heap all of whose fields are stable. -/
def objStable (env : Env) (heap : Heap) (o : Obj) : Bool :=
  o.complete ||
  (if o.name ≠ "" && !isStructPtr o.valueTy then true
   else match o.value, o.valueTy with
     | .vPtr base path, .tPtr (.tStruct sid) =>
         fieldsStable heap base path 0 (env.fields sid)
     | _, _ => false)

/-- A graph is stable when every object reachable from the unnamed and
named registries is stable — the state of a graph that is already fully
populated. -/
def stStable (env : Env) (st : GState) : Bool :=
  (st.unnamed.all (fun oi =>
    match st.objs[oi]? with
    | none => false
    | some o => objStable env st.heap o)) &&
  (st.named.all (fun p =>
    match st.objs[p.2]? with
    | none => false
    | some o => objStable env st.heap o))

/-- A stable field is skipped by pass 1: no write, no error, no
registration. -/
theorem popField_skip (env : Env) (st : GState) (oi base : Nat)
    (path : List Nat) (sid i : Nat) (fd : FieldDecl)
    (h : fieldStable st.heap base path i fd = true) :
    popField env st oi base path sid i fd = (st, none) := by
  unfold fieldStable at h
  unfold popField
  cases hp : parseTag fd.ftag with
  | error e => rw [hp] at h; exact absurd h (by simp)
  | ok otg =>
    rw [hp] at h
    cases otg with
    | none => rfl
    | some tg =>
      dsimp only
      dsimp only at h
      rw [Bool.and_assoc] at h
      obtain ⟨hexp, h2⟩ := Bool.and_eq_true_iff.mp h
      obtain ⟨hniface, h3⟩ := Bool.and_eq_true_iff.mp h2
      rw [if_neg (by simp [hexp])]
      cases hr : heapRead st.heap base (path ++ [i]) with
      | none => rw [hr] at h3; exact absurd h3 (by simp)
      | some fv =>
        rw [hr] at h3
        have hz : (!isNilOrZero fv fd.fty) = true := by simpa using h3
        dsimp only
        rw [if_pos hz]

/-- A stable field is skipped by pass 2 as well. -/
theorem popFieldIface_skip (env : Env) (st : GState) (oi base : Nat)
    (path : List Nat) (sid i : Nat) (fd : FieldDecl)
    (h : fieldStable st.heap base path i fd = true) :
    popFieldIface env st oi base path sid i fd = (st, none) := by
  unfold fieldStable at h
  unfold popFieldIface
  cases hp : parseTag fd.ftag with
  | error e => rw [hp] at h; exact absurd h (by simp)
  | ok otg =>
    rw [hp] at h
    cases otg with
    | none => rfl
    | some tg =>
      dsimp only
      dsimp only at h
      rw [Bool.and_assoc] at h
      obtain ⟨hexp, h2⟩ := Bool.and_eq_true_iff.mp h
      obtain ⟨hniface, h3⟩ := Bool.and_eq_true_iff.mp h2
      cases hty : fd.fty with
      | tIface iid =>
        rw [hty] at h3 hniface
        dsimp only
        have hne : ¬ (tg = injectPrivate) := by simpa using hniface
        rw [if_neg hne]
        cases hr : heapRead st.heap base (path ++ [i]) with
        | none => rw [hr] at h3; exact absurd h3 (by simp)
        | some fv =>
          rw [hr] at h3
          have hz : (!isNilOrZero fv (Ty.tIface iid)) = true := by simpa using h3
          dsimp only
          rw [if_pos hz]
      | tInt => rfl
      | tStruct s2 => rfl
      | tPtr t2 => rfl
      | tMap m2 => rfl

theorem pbind_ok (st : GState) (k : GState → PR) : pbind (st, none) k = k st := rfl

/-- A run over stable fields is the identity. -/
theorem popFields_stable : ∀ (fds : List FieldDecl) (env : Env) (st : GState)
    (oi base : Nat) (path : List Nat) (sid i : Nat),
    fieldsStable st.heap base path i fds = true →
    popFields env st oi base path sid i fds = (st, none) := by
  intro fds
  induction fds with
  | nil => intro env st oi base path sid i _; rfl
  | cons fd rest ih =>
    intro env st oi base path sid i h
    unfold fieldsStable at h
    obtain ⟨h1, h2⟩ := Bool.and_eq_true_iff.mp h
    unfold popFields
    rw [popField_skip env st oi base path sid i fd h1]
    show popFields env st oi base path sid (i+1) rest = (st, none)
    exact ih env st oi base path sid (i+1) h2

/-- Pass 2 over stable fields is the identity. -/
theorem popFieldsIface_stable : ∀ (fds : List FieldDecl) (env : Env) (st : GState)
    (oi base : Nat) (path : List Nat) (sid i : Nat),
    fieldsStable st.heap base path i fds = true →
    popFieldsIface env st oi base path sid i fds = (st, none) := by
  intro fds
  induction fds with
  | nil => intro env st oi base path sid i _; rfl
  | cons fd rest ih =>
    intro env st oi base path sid i h
    unfold fieldsStable at h
    obtain ⟨h1, h2⟩ := Bool.and_eq_true_iff.mp h
    unfold popFieldsIface
    rw [popFieldIface_skip env st oi base path sid i fd h1]
    show popFieldsIface env st oi base path sid (i+1) rest = (st, none)
    exact ih env st oi base path sid (i+1) h2

/-- Pass 1 on a stable incomplete object is the identity. -/
theorem populateExplicit_stable (env : Env) (st : GState) (oi : Nat) (o : Obj)
    (ho : st.objs[oi]? = some o) (hnc : o.complete = false)
    (hs : objStable env st.heap o = true) :
    populateExplicit env st oi = (st, none) := by
  unfold populateExplicit
  rw [ho]
  unfold objStable at hs
  rw [hnc, Bool.false_or] at hs
  dsimp only
  by_cases hg : (o.name ≠ "" && !isStructPtr o.valueTy) = true
  · rw [if_pos hg]
  · rw [if_neg hg]
    rw [if_neg hg] at hs
    split
    · rename_i base0 path0 sid0 heqv heqt
      rw [heqv, heqt] at hs
      dsimp only at hs
      exact popFields_stable (env.fields sid0) env st oi base0 path0 sid0 0 hs
    · rename_i hne
      split at hs
      · rename_i base0 path0 sid0 heqv heqt
        exact (hne base0 path0 sid0 heqv heqt).elim
      · exact absurd hs (by simp)

/-- Pass 2 on a stable incomplete object is the identity. -/
theorem populateIface_stable (env : Env) (st : GState) (oi : Nat) (o : Obj)
    (ho : st.objs[oi]? = some o) (hnc : o.complete = false)
    (hs : objStable env st.heap o = true) :
    populateIface env st oi = (st, none) := by
  unfold populateIface
  rw [ho]
  unfold objStable at hs
  rw [hnc, Bool.false_or] at hs
  dsimp only
  by_cases hg : (o.name ≠ "" && !isStructPtr o.valueTy) = true
  · rw [if_pos hg]
  · rw [if_neg hg]
    rw [if_neg hg] at hs
    split
    · rename_i base0 path0 sid0 heqv heqt
      rw [heqv, heqt] at hs
      dsimp only at hs
      exact popFieldsIface_stable (env.fields sid0) env st oi base0 path0 sid0 0 hs
    · rename_i hne
      split at hs
      · rename_i base0 path0 sid0 heqv heqt
        exact (hne base0 path0 sid0 heqv heqt).elim
      · exact absurd hs (by simp)

/-- The pass-1 work queue over a stable graph is the identity: nothing
is appended and nothing changes. -/
theorem populateLoop_stable (env : Env) (st : GState)
    (hst : stStable env st = true) :
    ∀ (fuel i : Nat), st.unnamed.length ≤ fuel + i →
    populateLoop env (fuel + 1) st i = (st, none) := by
  have hall := List.all_eq_true.mp (Bool.and_eq_true_iff.mp hst).1
  intro fuel
  induction fuel with
  | zero =>
    intro i hle
    unfold populateLoop
    by_cases hi : i = st.unnamed.length
    · rw [if_pos hi]
    · rw [if_neg hi]
      have hnone : st.unnamed[i]? = none := List.getElem?_eq_none (by omega)
      rw [hnone]
  | succ fuel ih =>
    intro i hle
    show populateLoop env (fuel + 1 + 1) st i = (st, none)
    unfold populateLoop
    by_cases hi : i = st.unnamed.length
    · rw [if_pos hi]
    · rw [if_neg hi]
      cases hui : st.unnamed[i]? with
      | none => rfl
      | some oi =>
        dsimp only
        have hfoi := hall oi (List.getElem?_mem hui)
        cases hobj : st.objs[oi]? with
        | none => rw [hobj] at hfoi; exact absurd hfoi (by simp)
        | some o =>
          rw [hobj] at hfoi
          dsimp only
          by_cases hc : o.complete = true
          · rw [if_pos hc]
            exact ih (i+1) (by omega)
          · rw [if_neg hc]
            have hnc : o.complete = false := by
              revert hc; cases o.complete <;> simp
            rw [populateExplicit_stable env st oi o hobj hnc hfoi, pbind_ok]
            exact ih (i+1) (by omega)

/-- The pass-1 named sweep over stable objects is the identity. -/
theorem populateExplicitNamed_stable (env : Env) (st : GState) :
    ∀ (l : List (String × Nat)),
    (∀ p ∈ l, (match st.objs[p.2]? with
      | none => false
      | some o => objStable env st.heap o) = true) →
    populateExplicitNamed env st l = (st, none) := by
  intro l
  induction l with
  | nil => intro _; rfl
  | cons p rest ih =>
    intro h
    obtain ⟨nm, oi⟩ := p
    have hp := h (nm, oi) (List.mem_cons_self _ _)
    unfold populateExplicitNamed
    cases hobj : st.objs[oi]? with
    | none => rw [hobj] at hp; exact absurd hp (by simp)
    | some o =>
      rw [hobj] at hp
      dsimp only at hp ⊢
      by_cases hc : o.complete = true
      · rw [if_pos hc]
        exact ih (fun q hq => h q (List.mem_cons_of_mem _ hq))
      · rw [if_neg hc]
        have hnc : o.complete = false := by
          revert hc; cases o.complete <;> simp
        rw [populateExplicit_stable env st oi o hobj hnc hp, pbind_ok]
        exact ih (fun q hq => h q (List.mem_cons_of_mem _ hq))

/-- The pass-2 unnamed sweep over stable objects is the identity. -/
theorem populateIfaceList_stable (env : Env) (st : GState) :
    ∀ (l : List Nat),
    (∀ oi ∈ l, (match st.objs[oi]? with
      | none => false
      | some o => objStable env st.heap o) = true) →
    populateIfaceList env st l = (st, none) := by
  intro l
  induction l with
  | nil => intro _; rfl
  | cons oi rest ih =>
    intro h
    have hp := h oi (List.mem_cons_self _ _)
    unfold populateIfaceList
    cases hobj : st.objs[oi]? with
    | none => rw [hobj] at hp; exact absurd hp (by simp)
    | some o =>
      rw [hobj] at hp
      dsimp only
      by_cases hc : o.complete = true
      · rw [if_pos hc]
        exact ih (fun q hq => h q (List.mem_cons_of_mem _ hq))
      · rw [if_neg hc]
        have hnc : o.complete = false := by
          revert hc; cases o.complete <;> simp
        rw [populateIface_stable env st oi o hobj hnc hp, pbind_ok]
        exact ih (fun q hq => h q (List.mem_cons_of_mem _ hq))

/-- The pass-2 named sweep over stable objects is the identity. -/
theorem populateIfaceNamed_stable (env : Env) (st : GState) :
    ∀ (l : List (String × Nat)),
    (∀ p ∈ l, (match st.objs[p.2]? with
      | none => false
      | some o => objStable env st.heap o) = true) →
    populateIfaceNamed env st l = (st, none) := by
  intro l
  induction l with
  | nil => intro _; rfl
  | cons p rest ih =>
    intro h
    obtain ⟨nm, oi⟩ := p
    have hp := h (nm, oi) (List.mem_cons_self _ _)
    unfold populateIfaceNamed
    cases hobj : st.objs[oi]? with
    | none => rw [hobj] at hp; exact absurd hp (by simp)
    | some o =>
      rw [hobj] at hp
      dsimp only at hp ⊢
      by_cases hc : o.complete = true
      · rw [if_pos hc]
        exact ih (fun q hq => h q (List.mem_cons_of_mem _ hq))
      · rw [if_neg hc]
        have hnc : o.complete = false := by
          revert hc; cases o.complete <;> simp
        rw [populateIface_stable env st oi o hobj hnc hp, pbind_ok]
        exact ih (fun q hq => h q (List.mem_cons_of_mem _ hq))

/-- `Populate` on a stable graph is a complete no-op apart from
recomputing the level buckets: no heap write, no new object, no error. -/
theorem populateG_stable (env : Env) (st : GState) (fuel : Nat)
    (hf : st.unnamed.length < fuel) (hst : stStable env st = true) :
    populateG env fuel st = (buildLevels st, none) := by
  obtain ⟨k, rfl⟩ : ∃ k, fuel = k + 1 := ⟨fuel - 1, by omega⟩
  have hnamed := List.all_eq_true.mp (Bool.and_eq_true_iff.mp hst).2
  have hunnamed := List.all_eq_true.mp (Bool.and_eq_true_iff.mp hst).1
  unfold populateG
  rw [populateLoop_stable env st hst k 0 (by omega), pbind_ok]
  rw [populateExplicitNamed_stable env st st.named hnamed, pbind_ok]
  rw [populateIfaceList_stable env st st.unnamed hunnamed, pbind_ok]
  rw [populateIfaceNamed_stable env st st.named hnamed, pbind_ok]

/-- Scenario for idempotence: struct 0 has one plain-tagged `*struct 1`
field; struct 1 has no fields. -/
def envIdem : Env :=
  { fields := fun sid =>
      if sid = 0 then [⟨"A", .tPtr (.tStruct 1), "inject:\"\"", true, false⟩]
      else [],
    impls := fun _ _ => false,
    depth := 2 }

/-- One provided `*struct 0` whose field is still nil. -/
def stIdem : GState :=
  ⟨[.vStruct 0 [.vPtrNil]],
   [⟨.tPtr (.tStruct 0), .vPtr 0 [], "", false, false, 0, false, false⟩],
   [0], [.tPtr (.tStruct 0)], [], 0, []⟩

/-- C9: idempotent completeness.  A field whose current value is
non-zero (`isNilOrZero`, inject.go:548) is skipped by pass 1 and by
pass 2 — never overwritten; `Populate` on a stable graph (every
registered object complete, a named value type, or with all fields
parsed, exported and non-zero) is a complete no-op apart from
recomputing the level buckets, so no field value changes; and on a
concrete graph a first successful `Populate` yields a stable graph on
which a second run succeeds changing neither the heap nor the object
registry. -/
theorem c9_idempotent_populate :
    (∀ (env : Env) (st : GState) (oi base : Nat) (path : List Nat)
        (sid i : Nat) (fd : FieldDecl) (tg : STag) (fv : Val),
        parseTag fd.ftag = .ok (some tg) → fd.exported = true →
        heapRead st.heap base (path ++ [i]) = some fv →
        isNilOrZero fv fd.fty = false →
        popField env st oi base path sid i fd = (st, none)) ∧
    (∀ (env : Env) (st : GState) (oi base : Nat) (path : List Nat)
        (sid i : Nat) (fd : FieldDecl) (tg : STag) (fv : Val),
        parseTag fd.ftag = .ok (some tg) →
        (∀ iid, fd.fty = Ty.tIface iid → tg ≠ injectPrivate) →
        fd.exported = true →
        heapRead st.heap base (path ++ [i]) = some fv →
        isNilOrZero fv fd.fty = false →
        popFieldIface env st oi base path sid i fd = (st, none)) ∧
    (∀ (env : Env) (st : GState) (fuel : Nat),
        st.unnamed.length < fuel → stStable env st = true →
        populateG env fuel st = (buildLevels st, none) ∧
        (buildLevels st).heap = st.heap ∧ (buildLevels st).objs = st.objs) ∧
    (populateG envIdem 5 stIdem).2 = none ∧
    stStable envIdem (populateG envIdem 5 stIdem).1 = true ∧
    (populateG envIdem 5 (populateG envIdem 5 stIdem).1).2 = none ∧
    ((populateG envIdem 5 (populateG envIdem 5 stIdem).1).1).heap =
      ((populateG envIdem 5 stIdem).1).heap ∧
    ((populateG envIdem 5 (populateG envIdem 5 stIdem).1).1).objs =
      ((populateG envIdem 5 stIdem).1).objs := by
  refine ⟨?_, ?_, ?_, by rfl, by rfl, by rfl, by rfl, by rfl⟩
  · intro env st oi base path sid i fd tg fv hp hexp hr hz
    unfold popField
    rw [hp]
    dsimp only
    rw [if_neg (by simp [hexp]), hr]
    dsimp only
    rw [if_pos (by simp [hz])]
  · intro env st oi base path sid i fd tg fv hp hiface hexp hr hz
    apply popFieldIface_skip
    unfold fieldStable
    rw [hp]
    dsimp only
    rw [hexp, hr]
    dsimp only
    rw [hz]
    cases hty : fd.fty with
    | tIface iid =>
      have hne := hiface iid hty
      simp [hne]
    | tInt => simp
    | tStruct s2 => simp
    | tPtr t2 => simp
    | tMap m2 => simp
  · intro env st fuel hf hst
    exact ⟨populateG_stable env st fuel hf hst, rfl, rfl⟩

/-- Concrete instance of `c9_idempotent_populate`: after the first run
on `stIdem`, the wired field is skipped by both passes, and the whole
second `Populate` only rebuilds the buckets. -/
theorem c9_idempotent_populate_witness :
    popField envIdem (populateG envIdem 5 stIdem).1 0 0 [] 0 0
        ⟨"A", .tPtr (.tStruct 1), "inject:\"\"", true, false⟩ =
      ((populateG envIdem 5 stIdem).1, none) ∧
    popFieldIface envIdem (populateG envIdem 5 stIdem).1 0 0 [] 0 0
        ⟨"A", .tPtr (.tStruct 1), "inject:\"\"", true, false⟩ =
      ((populateG envIdem 5 stIdem).1, none) ∧
    populateG envIdem 5 (populateG envIdem 5 stIdem).1 =
      (buildLevels (populateG envIdem 5 stIdem).1, none) := by
  refine ⟨?_, ?_, ?_⟩
  · exact c9_idempotent_populate.1 envIdem (populateG envIdem 5 stIdem).1 0 0 [] 0 0
      ⟨"A", .tPtr (.tStruct 1), "inject:\"\"", true, false⟩ injectOnly
      (Val.vPtr 1 []) (by rfl) (by rfl) (by rfl) (by rfl)
  · exact c9_idempotent_populate.2.1 envIdem (populateG envIdem 5 stIdem).1 0 0 [] 0 0
      ⟨"A", .tPtr (.tStruct 1), "inject:\"\"", true, false⟩ injectOnly
      (Val.vPtr 1 []) (by rfl) (fun iid h => Ty.noConfusion h) (by rfl) (by rfl)
      (by rfl)
  · exact (c9_idempotent_populate.2.2.1 envIdem (populateG envIdem 5 stIdem).1 5
      (by decide) (by decide)).1

end Inject
